import Mathlib

/-!
# Verification of the ZipJS ZIP container codec

Shallow embedding of `src/zip.js` (the primary module; the near-duplicate
variant `src/unnamed/part_001` is consulted where the claims cite it).
Byte buffers are `List Nat` (each element a byte value), JavaScript numbers
are modelled by `JsNum := Option Int` where `none` stands for `NaN` (and for
`undefined`, which behaves identically to `NaN` in every numeric context this
code uses: `+`, `<<`, `>>>`, `&`, `===`, `<=` and string concatenation).
JavaScript exceptions are modelled with `Except String`, carrying the thrown
message.
-/

namespace ZipJS

/-- A JavaScript number as used by the codec: `some n` is the integer `n`,
`none` is `NaN`/`undefined`.  All numbers the codec manipulates are integers
(no fractional values arise), so this model is exact. -/
abbrev JsNum := Option Int

/-- ECMAScript `ToUint32`: `NaN` maps to 0, integers are taken mod 2^32. -/
def toUint32 : JsNum → Nat
  | none => 0
  | some n => (n % 4294967296).toNat

/-- Reinterpret a 32-bit pattern as a signed 32-bit integer. -/
def int32OfPat (u : Nat) : Int :=
  if u < 2147483648 then (u : Int) else (u : Int) - 4294967296

/-- ECMAScript `ToInt32`. -/
def toInt32 (a : JsNum) : Int := int32OfPat (toUint32 a)

/-- JavaScript `a + b` on integer operands (`NaN` propagates). -/
def jsAdd : JsNum → JsNum → JsNum
  | some a, some b => some (a + b)
  | _, _ => none

/-- JavaScript `a << k`: `ToInt32` the operand, shift the 32-bit pattern,
reinterpret as signed 32-bit. -/
def jsShl (a : JsNum) (k : Nat) : Int :=
  int32OfPat (toUint32 a * 2 ^ k % 4294967296)

/-- JavaScript `a >>> k`: `ToUint32` the operand, then shift right. -/
def jsShrU (a : JsNum) (k : Nat) : Nat := toUint32 a / 2 ^ k

/-- JavaScript string conversion of a number, as used in thrown messages. -/
def jsNumStr : JsNum → String
  | none => "NaN"
  | some n => toString n

/-- JavaScript `flags >> i & 1) === 1` (signed shift then mask): bit `i` of
the 32-bit pattern of `flags`.  Source: `LocalFileHeader.getFlag`. -/
def getFlag (flags : JsNum) (i : Nat) : Bool :=
  toUint32 flags / 2 ^ i % 2 = 1

/-- Source: `LocalFileHeader.setFlag`: `flags |= 1 << i` or `flags &= ~(1 << i)`;
JavaScript bitwise ops work on the 32-bit patterns and return signed int32. -/
def setFlag (flags : JsNum) (i : Nat) (b : Bool) : JsNum :=
  let v := toUint32 (some (jsShl (some 1) i))
  if b then some (int32OfPat (toUint32 flags ||| v))
  else some (int32OfPat (toUint32 flags &&& (4294967295 - v)))

/-! ## CRC-32 (`class Crc32` in zip.js, `calcCrc32` in the variant module) -/

/-- One iteration of the table-builder inner loop:
`c = c & 1 ? 0xedb88320 ^ (c >>> 1) : (c >>> 1)`, on 32-bit patterns. -/
def crcStep (c : Nat) : Nat :=
  if c % 2 = 1 then 0xedb88320 ^^^ c / 2 else c / 2

/-- `crcStep` iterated `k` times. -/
def crcSteps : Nat → Nat → Nat
  | 0, c => c
  | k + 1, c => crcSteps k (crcStep c)

/-- Entry `i` of the precomputed 256-entry table (`#table[i]`): the source
constructor iterates the shift step 8 times starting from `i`. -/
def crc32table (i : Nat) : Nat := crcSteps 8 i

/-- One byte of the `calc` loop on 32-bit patterns:
`c = table[(c ^ b) & 0xff] ^ (c >>> 8)`.  JavaScript keeps `c` as a signed
int32 between iterations, but every operation used (`^`, `&`, `>>>`) depends
only on the 32-bit pattern, so tracking the pattern is exact. -/
def crcUpdate (c b : Nat) : Nat :=
  crc32table ((c ^^^ b) % 256) ^^^ c / 256

/-- 32-bit pattern of the CRC of a byte list: seed `0xffffffff`, table-driven
loop, final xor `0xffffffff`. -/
def calcCrc32Pat (bytes : List Nat) : Nat :=
  (bytes.foldl crcUpdate 0xffffffff) ^^^ 0xffffffff

/-- `Crc32.calc` / `calcCrc32`: the value the JavaScript function returns.
The final `c ^ 0xffffffff` is a JavaScript `^`, which returns a *signed*
32-bit integer, so the result is the signed reinterpretation of the CRC
pattern (negative whenever the top bit of the CRC is set). -/
def calcCrc32 (bytes : List Nat) : Int := int32OfPat (calcCrc32Pat bytes)

/-! ## ZipDateTime -/

/-- DOS date/time record (`class ZipDateTime`).  Fields are JavaScript
integers. -/
structure ZipDateTime where
  year : Int
  month : Int
  day : Int
  hour : Int
  minute : Int
  second : Int
deriving DecidableEq

/-- `toInt()`: `(year - 1980 << 25) + (month << 21) + (day << 16) +
(hour << 11) + (minute << 5) + Math.floor(second / 2)`.  Each `<<` is a
32-bit shift returning signed int32; the additions are exact number
additions; `Math.floor(x / 2)` on an integer is floor division. -/
def ZipDateTime.toInt (dt : ZipDateTime) : Int :=
  jsShl (some (dt.year - 1980)) 25 + jsShl (some dt.month) 21
    + jsShl (some dt.day) 16 + jsShl (some dt.hour) 11
    + jsShl (some dt.minute) 5 + dt.second.fdiv 2

/-- `ZipDateTime.fromInt(i)`: unpack bit fields.  `i >>> k` is `ToUint32`
then shift; `& mask` keeps the low bits; `(i & 0b11111) * 2` doubles the
stored half-seconds.  Every field factors through the 32-bit pattern of `i`. -/
def ZipDateTime.fromInt (i : JsNum) : ZipDateTime where
  year := 1980 + (jsShrU i 25 : Nat)
  month := (jsShrU i 21 % 16 : Nat)
  day := (jsShrU i 16 % 32 : Nat)
  hour := (jsShrU i 11 % 32 : Nat)
  minute := (jsShrU i 5 % 64 : Nat)
  second := (toUint32 i % 32 * 2 : Nat)

/-! ## ByteArrayCursor -/

/-- `class ByteArrayCursor`: a byte buffer plus a movable offset.  The offset
is an integer (JavaScript lets it be negative; `moveTo(-1)` succeeds since
the setter only checks `v <= length`). -/
structure ByteArrayCursor where
  bytes : List Nat
  off : Int

/-- The offset setter: succeeds iff `v <= bytes.length`, otherwise throws
`'Index is invalid: ' + v`.  `NaN <= length` is false, so a `NaN` offset
always throws. -/
def ByteArrayCursor.setOff (c : ByteArrayCursor) (v : JsNum) :
    Except String ByteArrayCursor :=
  match v with
  | some i =>
    if i ≤ (c.bytes.length : Int) then .ok { c with off := i }
    else .error ("Index is invalid: " ++ toString i)
  | none => .error ("Index is invalid: NaN")

/-- `moveTo(index)` just assigns the offset (through the checking setter). -/
def ByteArrayCursor.moveTo (c : ByteArrayCursor) (v : JsNum) :
    Except String ByteArrayCursor :=
  c.setOff v

/-- `read()`: `this.bytes[this.offset++]`.  The postfix increment runs the
checking setter while the index expression is evaluated, so its failure
precedes the array access; reading at a negative offset yields `undefined`
(modelled `none`), which is what `Uint8Array` indexing returns out of range. -/
def ByteArrayCursor.read (c : ByteArrayCursor) :
    Except String (JsNum × ByteArrayCursor) := do
  let c' ← c.setOff (some (c.off + 1))
  .ok ((if 0 ≤ c.off then (c.bytes[c.off.toNat]?).map (Int.ofNat ·) else none), c')

/-- `readAsUshort()`: `this.read() + (this.read() << 8)`. -/
def ByteArrayCursor.readAsUshort (c : ByteArrayCursor) :
    Except String (JsNum × ByteArrayCursor) := do
  let (a, c) ← c.read
  let (b, c) ← c.read
  .ok (jsAdd a (some (jsShl b 8)), c)

/-- `readAsInt()`: four reads combined little-endian; the value is a signed
32-bit integer because `r3 << 24` is. -/
def ByteArrayCursor.readAsInt (c : ByteArrayCursor) :
    Except String (JsNum × ByteArrayCursor) := do
  let (r0, c) ← c.read
  let (r1, c) ← c.read
  let (r2, c) ← c.read
  let (r3, c) ← c.read
  .ok (jsAdd (jsAdd (jsAdd r0 (some (jsShl r1 8))) (some (jsShl r2 16)))
        (some (jsShl r3 24)), c)

/-- `readAsUint()`: `this.readAsInt() >>> 0` (`ToUint32`; `NaN` becomes 0). -/
def ByteArrayCursor.readAsUint (c : ByteArrayCursor) :
    Except String (Nat × ByteArrayCursor) := do
  let (v, c) ← c.readAsInt
  .ok (toUint32 v, c)

/-- `Uint8Array.subarray` index clamping for a relative index. -/
def clampIdx (len : Nat) (x : Int) : Nat :=
  if x < 0 then (max (len + x) 0).toNat else min x.toNat len

/-- `subarray(length)`: a view of `bytes[offset : offset + length]` with
`subarray`'s clamping, then `offset += length` through the checking setter. -/
def ByteArrayCursor.subarray (c : ByteArrayCursor) (length : JsNum) :
    Except String (List Nat × ByteArrayCursor) := do
  let endIdx := jsAdd (some c.off) length
  let b := clampIdx c.bytes.length c.off
  let e := match endIdx with
    | some v => clampIdx c.bytes.length v
    | none => 0
  let sub := (c.bytes.take e).drop b
  let c' ← c.setOff endIdx
  .ok (sub, c')

/-! ## Record serialization primitives

`toBytes()` in the source allocates a buffer of exactly the record's size and
fills it completely with `writeInt` / `writeUshort` / `set` calls, which
cannot fail there; so each `toBytes` is modelled directly as the byte list
those writes lay down, in order. -/

/-- Bytes stored by `writeUshort(s)`: `s & 0xff` then `s >>> 8 & 0xff`
(low two bytes, little-endian, of the 32-bit pattern of `s`). -/
def ushortBytes (s : JsNum) : List Nat :=
  [toUint32 s % 256, toUint32 s / 256 % 256]

/-- Bytes stored by `writeInt(i)`: the four little-endian bytes of the
32-bit pattern of `i`. -/
def uintBytes (i : JsNum) : List Nat :=
  [toUint32 i % 256, toUint32 i / 256 % 256,
   toUint32 i / 65536 % 256, toUint32 i / 16777216 % 256]

/-! ## Local File Header -/

/-- `class LocalFileHeader`.  Field initializers from the source; the
`lastModified` initializer (`ZipDateTime.fromDate()`, the current wall-clock
time) and the uninitialized byte fields are supplied by every code path that
is modelled, so they carry no default here. -/
structure LocalFileHeader where
  signature : JsNum := some 0x04034b50
  versionNeeded : JsNum := some 20
  flags : JsNum := some 1024
  method : JsNum := some 8
  lastModified : ZipDateTime
  crc32 : JsNum := some 0
  compressedSize : JsNum := some 0
  uncompressedSize : JsNum := some 0
  fileNameBytes : List Nat := []
  extraFieldBytes : List Nat := []
deriving DecidableEq

/-- `get hasDataDescriptor()`: flag bit 3. -/
def LocalFileHeader.hasDataDescriptor (h : LocalFileHeader) : Bool :=
  getFlag h.flags 3

/-- `get isUtf8()`: flag bit 11. -/
def LocalFileHeader.isUtf8 (h : LocalFileHeader) : Bool :=
  getFlag h.flags 11

/-- `LocalFileHeader.prototype.toBytes()`: 30 fixed bytes then the two
variable ranges. -/
def LocalFileHeader.toBytes (h : LocalFileHeader) : List Nat :=
  uintBytes h.signature ++ ushortBytes h.versionNeeded ++ ushortBytes h.flags
    ++ ushortBytes h.method ++ uintBytes (some h.lastModified.toInt)
    ++ uintBytes h.crc32 ++ uintBytes h.compressedSize
    ++ uintBytes h.uncompressedSize
    ++ ushortBytes (some (h.fileNameBytes.length : Int))
    ++ ushortBytes (some (h.extraFieldBytes.length : Int))
    ++ h.fileNameBytes ++ h.extraFieldBytes

/-- `static LocalFileHeader.from(cursor)` (`from` is a Lean keyword, hence
`fromCursor`): reads the fixed fields in order, then the two
variable-length ranges. -/
def LocalFileHeader.fromCursor (c : ByteArrayCursor) :
    Except String (LocalFileHeader × ByteArrayCursor) := do
  let (signature, c) ← c.readAsUint
  let (versionNeeded, c) ← c.readAsUshort
  let (flags, c) ← c.readAsUshort
  let (method, c) ← c.readAsUshort
  let (lastModifiedRaw, c) ← c.readAsUint
  let (crc32, c) ← c.readAsUint
  let (compressedSize, c) ← c.readAsUint
  let (uncompressedSize, c) ← c.readAsUint
  let (fileNameLength, c) ← c.readAsUshort
  let (extraFieldLength, c) ← c.readAsUshort
  let (fileNameBytes, c) ← c.subarray fileNameLength
  let (extraFieldBytes, c) ← c.subarray extraFieldLength
  .ok ({ signature := some (signature : Int), versionNeeded, flags, method,
         lastModified := ZipDateTime.fromInt (some (lastModifiedRaw : Int)),
         crc32 := some (crc32 : Int),
         compressedSize := some (compressedSize : Int),
         uncompressedSize := some (uncompressedSize : Int),
         fileNameBytes, extraFieldBytes }, c)

/-! ## Central Directory entry

In the source `CentralDirectoryEntry extends LocalFileHeader`; Lean
structures have no inheritance, so all fields are repeated here with the
same initializers (the `signature` initializer is overridden as in the
subclass). -/

/-- `class CentralDirectoryEntry extends LocalFileHeader`. -/
structure CentralDirectoryEntry where
  signature : JsNum := some 0x02014b50
  versionMadeBy : JsNum := some 20
  versionNeeded : JsNum := some 20
  flags : JsNum := some 1024
  method : JsNum := some 8
  lastModified : ZipDateTime
  crc32 : JsNum := some 0
  compressedSize : JsNum := some 0
  uncompressedSize : JsNum := some 0
  fileNameBytes : List Nat := []
  extraFieldBytes : List Nat := []
  diskIdStart : JsNum := some 0
  internalAttributes : JsNum := some 0
  externalAttributes : JsNum := some 0
  /-- Uninitialized in the class (`undefined`) until assigned by `build()`
  or by parsing. -/
  headerOffset : JsNum := none
  commentBytes : List Nat := []
deriving DecidableEq

/-- `CentralDirectoryEntry.prototype.toBytes()`: 46 fixed bytes then the
three variable ranges. -/
def CentralDirectoryEntry.toBytes (e : CentralDirectoryEntry) : List Nat :=
  uintBytes e.signature ++ ushortBytes e.versionMadeBy
    ++ ushortBytes e.versionNeeded ++ ushortBytes e.flags
    ++ ushortBytes e.method ++ uintBytes (some e.lastModified.toInt)
    ++ uintBytes e.crc32 ++ uintBytes e.compressedSize
    ++ uintBytes e.uncompressedSize
    ++ ushortBytes (some (e.fileNameBytes.length : Int))
    ++ ushortBytes (some (e.extraFieldBytes.length : Int))
    ++ ushortBytes (some (e.commentBytes.length : Int))
    ++ ushortBytes e.diskIdStart ++ ushortBytes e.internalAttributes
    ++ uintBytes e.externalAttributes ++ uintBytes e.headerOffset
    ++ e.fileNameBytes ++ e.extraFieldBytes ++ e.commentBytes

/-- `static CentralDirectoryEntry.from(cursor)`. -/
def CentralDirectoryEntry.fromCursor (c : ByteArrayCursor) :
    Except String (CentralDirectoryEntry × ByteArrayCursor) := do
  let (signature, c) ← c.readAsUint
  let (versionMadeBy, c) ← c.readAsUshort
  let (versionNeeded, c) ← c.readAsUshort
  let (flags, c) ← c.readAsUshort
  let (method, c) ← c.readAsUshort
  let (lastModifiedRaw, c) ← c.readAsUint
  let (crc32, c) ← c.readAsUint
  let (compressedSize, c) ← c.readAsUint
  let (uncompressedSize, c) ← c.readAsUint
  let (fileNameLength, c) ← c.readAsUshort
  let (extraFieldLength, c) ← c.readAsUshort
  let (commentLength, c) ← c.readAsUshort
  let (diskIdStart, c) ← c.readAsUshort
  let (internalAttributes, c) ← c.readAsUshort
  let (externalAttributes, c) ← c.readAsUint
  let (headerOffset, c) ← c.readAsUint
  let (fileNameBytes, c) ← c.subarray fileNameLength
  let (extraFieldBytes, c) ← c.subarray extraFieldLength
  let (commentBytes, c) ← c.subarray commentLength
  .ok ({ signature := some (signature : Int), versionMadeBy, versionNeeded,
         flags, method,
         lastModified := ZipDateTime.fromInt (some (lastModifiedRaw : Int)),
         crc32 := some (crc32 : Int),
         compressedSize := some (compressedSize : Int),
         uncompressedSize := some (uncompressedSize : Int),
         fileNameBytes, extraFieldBytes, diskIdStart, internalAttributes,
         externalAttributes := some (externalAttributes : Int),
         headerOffset := some (headerOffset : Int), commentBytes }, c)

/-! ## End of Central Directory record -/

/-- `class EndOfCentralDirectoryRecord`. -/
structure EndOfCentralDirectoryRecord where
  signature : JsNum := some 0x06054b50
  diskId : JsNum := some 0
  firstDiskId : JsNum := some 0
  numOfFiles : JsNum := some 1
  totalNumOfFiles : JsNum := some 0
  /-- Uninitialized in the class until assigned. -/
  cdSize : JsNum := none
  /-- Uninitialized in the class until assigned. -/
  cdOffset : JsNum := none
  commentBytes : List Nat := []
deriving DecidableEq

/-- `EndOfCentralDirectoryRecord.prototype.toBytes()`: 22 fixed bytes then
the comment. -/
def EndOfCentralDirectoryRecord.toBytes (r : EndOfCentralDirectoryRecord) :
    List Nat :=
  uintBytes r.signature ++ ushortBytes r.diskId ++ ushortBytes r.firstDiskId
    ++ ushortBytes r.numOfFiles ++ ushortBytes r.totalNumOfFiles
    ++ uintBytes r.cdSize ++ uintBytes r.cdOffset
    ++ ushortBytes (some (r.commentBytes.length : Int))
    ++ r.commentBytes

/-- `static EndOfCentralDirectoryRecord.from(cursor)`. -/
def EndOfCentralDirectoryRecord.fromCursor (c : ByteArrayCursor) :
    Except String (EndOfCentralDirectoryRecord × ByteArrayCursor) := do
  let (signature, c) ← c.readAsUint
  let (diskId, c) ← c.readAsUshort
  let (firstDiskId, c) ← c.readAsUshort
  let (numOfFiles, c) ← c.readAsUshort
  let (totalNumOfFiles, c) ← c.readAsUshort
  let (cdSize, c) ← c.readAsUint
  let (cdOffset, c) ← c.readAsUint
  let (commentLength, c) ← c.readAsUshort
  let (commentBytes, c) ← c.subarray commentLength
  .ok ({ signature := some (signature : Int), diskId, firstDiskId,
         numOfFiles, totalNumOfFiles, cdSize := some (cdSize : Int),
         cdOffset := some (cdOffset : Int), commentBytes }, c)

/-! ## Extractor -/

/-- Does the 4-byte EOCD signature `[0x50, 0x4b, 5, 6]` start at index `i`?
(`a[i + j]` past the end is `undefined` and fails the comparison, exactly as
in the `findLastIndex` predicate.) -/
def sigAt (bytes : List Nat) (i : Nat) : Bool :=
  bytes[i]? == some 0x50 && bytes[i + 1]? == some 0x4b
    && bytes[i + 2]? == some 5 && bytes[i + 3]? == some 6

/-- `bytes.findLastIndex(...)` for the EOCD signature: the greatest index
where it matches, `-1` when none does. -/
def findLastSigIdx (bytes : List Nat) : Int :=
  match ((List.range bytes.length).filter (sigAt bytes)).getLast? with
  | some i => (i : Int)
  | none => -1

/-- `Array.from({length: L}, ...)`: `ToLength` of the length property
(`NaN` and negative values give 0). -/
def jsToLength : JsNum → Nat
  | none => 0
  | some i => min i.toNat 9007199254740991

/-- The parsed state `class Extractor` holds: the EOCD record, the central
directory, and the `(header, body)` content pairs. -/
structure Extractor where
  eocd : EndOfCentralDirectoryRecord
  centralDirectory : List CentralDirectoryEntry
  contents : List (LocalFileHeader × List Nat)
deriving DecidableEq

/-- `Array.from({length: n}, () => CentralDirectoryEntry.from(cursor))`:
parse `n` consecutive central-directory entries, threading the cursor. -/
def parseCD : Nat → ByteArrayCursor →
    Except String (List CentralDirectoryEntry × ByteArrayCursor)
  | 0, c => .ok ([], c)
  | n + 1, c => do
    let (e, c) ← CentralDirectoryEntry.fromCursor c
    let (es, c) ← parseCD n c
    .ok (e :: es, c)

/-- The body of `this.centralDirectory.map(record => ...)` in the Extractor
constructor: jump to the entry's local header, parse it, view
`compressedSize` bytes as the body, and, when the header's
has-data-descriptor flag is set, override the header's CRC-32 and sizes from
the following data descriptor (skipping its optional signature). -/
def parseContent (c : ByteArrayCursor) (record : CentralDirectoryEntry) :
    Except String ((LocalFileHeader × List Nat) × ByteArrayCursor) := do
  let c ← c.moveTo record.headerOffset
  let (header, c) ← LocalFileHeader.fromCursor c
  let (body, c) ← c.subarray record.compressedSize
  if header.hasDataDescriptor then
    let (maySignature, c) ← c.readAsInt
    let (crcVal, c) ←
      if maySignature = some 0x08074b50 then c.readAsInt
      else .ok (maySignature, c)
    let (csVal, c) ← c.readAsInt
    let (usVal, c) ← c.readAsInt
    let header' := { header with crc32 := crcVal, compressedSize := csVal,
                                 uncompressedSize := usVal }
    .ok ((header', body), c)
  else
    .ok ((header, body), c)

/-- The `map` over the central directory producing `this.contents`. -/
def parseContents (c : ByteArrayCursor) :
    List CentralDirectoryEntry →
    Except String (List (LocalFileHeader × List Nat) × ByteArrayCursor)
  | [] => .ok ([], c)
  | r :: rs => do
    let (p, c) ← parseContent c r
    let (ps, c) ← parseContents c rs
    .ok (p :: ps, c)

/-- The `Extractor` constructor on an archive buffer.  Note the source never
tests `findLastIndex`'s `-1` result: when the signature is absent the cursor
is moved to `-1` (which the offset setter accepts) and the EOCD is parsed
from there. -/
def Extractor.construct (bytes : List Nat) : Except String Extractor := do
  let cursor : ByteArrayCursor := ⟨bytes, 0⟩
  let offsetEocd := findLastSigIdx bytes
  let cursor ← cursor.moveTo (some offsetEocd)
  let (eocd, cursor) ← EndOfCentralDirectoryRecord.fromCursor cursor
  let cursor ← cursor.moveTo eocd.cdOffset
  let (centralDirectory, cursor) ← parseCD (jsToLength eocd.numOfFiles) cursor
  let (contents, _) ← parseContents cursor centralDirectory
  .ok ⟨eocd, centralDirectory, contents⟩

/-- `Array.prototype.at`: nonnegative indices from the front, negative
indices from the back, `undefined` out of range. -/
def jsAt {α : Type} (l : List α) (i : Int) : Option α :=
  if 0 ≤ i then l[i.toNat]?
  else if 0 ≤ i + l.length then l[(i + l.length).toNat]?
  else none

/-- `Extractor.prototype.pick(index)`.  Decompression (`DecompressionStream
('deflate-raw')`) is an external service of the host environment; it is a
parameter `decompress`, and the model returns the byte content of the
`Response` the source would produce. -/
def Extractor.pick (decompress : List Nat → List Nat) (e : Extractor)
    (index : Int) : Except String (List Nat) :=
  match jsAt e.contents index with
  | none => .error ("No content at the index: " ++ toString index)
  | some (header, body) =>
    if header.method = some 0 then .ok body
    else if header.method = some 8 then .ok (decompress body)
    else .error ("Unsupported compression method: " ++ jsNumStr header.method)

/-! ## Builder -/

/-- The mutable state of `class Builder`: two parallel lists. -/
structure Builder where
  centralDirectory : List CentralDirectoryEntry := []
  contents : List (LocalFileHeader × List Nat) := []

/-- `ZipBuilderAppendOptions`.  `filepath` and `comment` are modelled by
their `TextEncoder.encode` byte sequences (text encoding is host
functionality; an omitted comment encodes to the empty sequence). -/
structure AppendOptions where
  filepath : List Nat
  method : Option Int := none
  extraField : Option (List Nat) := none
  comment : List Nat := []

/-- `Builder.prototype.append(buf, opt)`.  Two host services are parameters:
`now` is the `ZipDateTime` produced by `ZipDateTime.fromDate` on the
(current or caller-supplied) date, and `compress` is the
`CompressionStream('deflate-raw')` service.  Returns the value of
`this.contents.push(...)` (the new length) and the new state. -/
def Builder.append (now : ZipDateTime) (compress : List Nat → List Nat)
    (b : Builder) (buf : List Nat) (opt : AppendOptions) :
    Except String (Nat × Builder) :=
  let uncompressed := buf
  let method := opt.method.getD 8
  let versionNeeded : JsNum := some (if method = 8 then 20 else 10)
  let header : LocalFileHeader :=
    { versionNeeded, method := some method, lastModified := now,
      flags := setFlag (some 1024) 11 true,
      fileNameBytes := opt.filepath,
      extraFieldBytes := opt.extraField.getD [],
      crc32 := some (calcCrc32 uncompressed),
      uncompressedSize := some (uncompressed.length : Int) }
  let cd : CentralDirectoryEntry :=
    { versionNeeded, versionMadeBy := some 20, method := some method,
      lastModified := now, flags := setFlag (some 1024) 11 true,
      fileNameBytes := opt.filepath,
      extraFieldBytes := opt.extraField.getD [],
      commentBytes := opt.comment,
      crc32 := some (calcCrc32 uncompressed),
      uncompressedSize := some (uncompressed.length : Int) }
  if method = 0 then
    .ok (b.contents.length + 1,
      { centralDirectory := b.centralDirectory
          ++ [{ cd with compressedSize := some (uncompressed.length : Int) }],
        contents := b.contents
          ++ [({ header with
                 compressedSize := some (uncompressed.length : Int) },
               uncompressed)] })
  else if method = 8 then
    let compressed := compress uncompressed
    .ok (b.contents.length + 1,
      { centralDirectory := b.centralDirectory
          ++ [{ cd with compressedSize := some (compressed.length : Int) }],
        contents := b.contents
          ++ [({ header with
                 compressedSize := some (compressed.length : Int) },
               compressed)] })
  else
    .error ("Unsupported compression method: " ++ toString method)

/-- `Array.prototype.splice(start, deleteCount)` on a list: returns
(removed, remaining). -/
def spliceSplit {α : Type} (l : List α) (start delCnt : Int) :
    List α × List α :=
  let len := l.length
  let s := if start < 0 then (max ((len : Int) + start) 0).toNat
           else min start.toNat len
  let d := (min (max delCnt 0) ((len : Int) - s)).toNat
  ((l.drop s).take d, l.take s ++ l.drop (s + d))

/-- `Builder.prototype.remove(index, count = 1)`: `count`-wide splice on the
central directory, width-1 splice on the contents.  Returns the removed
entries' file-name byte sequences (the source maps them through the host
`TextDecoder`) and the new state. -/
def Builder.remove (b : Builder) (index : Int) (count : Int := 1) :
    List (List Nat) × Builder :=
  let cdSplice := spliceSplit b.centralDirectory index count
  let contentsSplice := spliceSplit b.contents index 1
  (cdSplice.1.map (·.fileNameBytes),
   { centralDirectory := cdSplice.2, contents := contentsSplice.2 })

/-- The output of `build()`: the archive bytes of the returned `Blob`,
together with the mutated central directory (the loop assigns every
`headerOffset`) and the freshly constructed EOCD record. -/
structure BuildResult where
  bytes : List Nat
  centralDirectory : List CentralDirectoryEntry
  eocd : EndOfCentralDirectoryRecord

/-- The offset-assigning loop of `build()`: walk contents in order, set
`centralDirectory[i].headerOffset` to the bytes accumulated so far, and emit
each serialized local header followed by its body.  Accessing a missing
directory entry is a JavaScript `TypeError`. -/
def assignOffsets : List (LocalFileHeader × List Nat) →
    List CentralDirectoryEntry → Nat →
    Except String (List Nat × List CentralDirectoryEntry × Nat)
  | [], cds, offset => .ok ([], cds, offset)
  | (h, body) :: rest, cd :: cds, offset => do
    let hb := h.toBytes
    let (tailBytes, cds', off') ←
      assignOffsets rest cds (offset + (hb.length + body.length))
    .ok (hb ++ body ++ tailBytes,
         { cd with headerOffset := some (offset : Int) } :: cds', off')
  | _ :: _, [], _ => .error "TypeError"

/-- `Builder.prototype.build(options)`: local headers and bodies with
recomputed offsets, then the serialized central directory, then a fresh
EOCD whose counts, directory size and directory offset are set from the
current state.  `comment` is the encoded package comment (empty when the
option is omitted). -/
def Builder.build (b : Builder) (comment : List Nat := []) :
    Except String BuildResult := do
  let (localBytes, cd', offset) ←
    assignOffsets b.contents b.centralDirectory 0
  let cdBytesList := cd'.map (·.toBytes)
  let eocd : EndOfCentralDirectoryRecord :=
    { numOfFiles := some (b.contents.length : Int),
      totalNumOfFiles := some (b.contents.length : Int),
      cdSize := some ((cdBytesList.map (·.length)).sum : Int),
      cdOffset := some (offset : Int),
      commentBytes := comment }
  .ok ⟨localBytes ++ cdBytesList.flatten ++ eocd.toBytes, cd', eocd⟩

/-- Folding `append` over a list of `(path bytes, method, content)` entries:
the Builder state reached by appending each in order. -/
def Builder.appendAll (now : ZipDateTime) (compress : List Nat → List Nat) :
    Builder → List (List Nat × Int × List Nat) → Except String Builder
  | b, [] => .ok b
  | b, (path, method, content) :: rest => do
    let (_, b) ← b.append now compress content
      { filepath := path, method := some method }
    Builder.appendAll now compress b rest

/-! ## Arithmetic helper lemmas -/

theorem toUint32_coe (n : Nat) (h : n < 4294967296) :
    toUint32 (some (n : Int)) = n := by
  simp only [toUint32]
  omega

theorem toUint32_lt (a : JsNum) : toUint32 a < 4294967296 := by
  cases a with
  | none => simp [toUint32]
  | some n =>
    simp only [toUint32]
    have h := Int.emod_nonneg n (by norm_num : (4294967296 : Int) ≠ 0)
    have h2 := Int.emod_lt_of_pos n (by norm_num : (0:Int) < 4294967296)
    omega

theorem toUint32_idem (a : JsNum) :
    toUint32 (some ((toUint32 a : Nat) : Int)) = toUint32 a :=
  toUint32_coe _ (toUint32_lt a)

theorem int32OfPat_small {u : Nat} (h : u < 2147483648) :
    int32OfPat u = (u : Int) := by
  simp [int32OfPat, h]

theorem jsShl_nat (n k : Nat) (h : n * 2 ^ k < 2147483648) :
    jsShl (some (n : Int)) k = ((n * 2 ^ k : Nat) : Int) := by
  have hn : n < 4294967296 := by
    have : n ≤ n * 2 ^ k := Nat.le_mul_of_pos_right n (Nat.pos_pow_of_pos k (by norm_num))
    omega
  rw [jsShl, toUint32_coe n hn, Nat.mod_eq_of_lt (by omega)]
  exact int32OfPat_small h

/-! ## C4: ZipDateTime round trip -/

/-- `fromInt` factors through the 32-bit pattern of its argument. -/
theorem ZipDateTime.fromInt_congr {a b : JsNum} (h : toUint32 a = toUint32 b) :
    ZipDateTime.fromInt a = ZipDateTime.fromInt b := by
  simp only [ZipDateTime.fromInt, jsShrU, h]

/-- Core round-trip computation: for a timestamp whose fields fit the bit
widths of the packed format (7/4/5/5/6/5 bits, year offset from 1980),
unpacking the packed value recovers every field, with the seconds rounded
down to the nearest even value. -/
theorem ZipDateTime.fromInt_toInt (t : ZipDateTime)
    (hy1 : 1980 ≤ t.year) (hy2 : t.year < 2108)
    (hmo1 : 0 ≤ t.month) (hmo2 : t.month < 16)
    (hd1 : 0 ≤ t.day) (hd2 : t.day < 32)
    (hh1 : 0 ≤ t.hour) (hh2 : t.hour < 32)
    (hmi1 : 0 ≤ t.minute) (hmi2 : t.minute < 64)
    (hs1 : 0 ≤ t.second) (hs2 : t.second ≤ 59) :
    ZipDateTime.fromInt (some t.toInt) =
      { t with second := t.second - t.second % 2 } := by
  obtain ⟨y, mo, d, h, mi, s⟩ := t
  simp only at hy1 hy2 hmo1 hmo2 hd1 hd2 hh1 hh2 hmi1 hmi2 hs1 hs2
  obtain ⟨Y, hY⟩ : ∃ Y : Nat, (Y : Int) = y - 1980 := ⟨(y - 1980).toNat, by omega⟩
  obtain ⟨MO, hMO⟩ : ∃ MO : Nat, (MO : Int) = mo := ⟨mo.toNat, by omega⟩
  obtain ⟨D, hD⟩ : ∃ D : Nat, (D : Int) = d := ⟨d.toNat, by omega⟩
  obtain ⟨H, hH⟩ : ∃ H : Nat, (H : Int) = h := ⟨h.toNat, by omega⟩
  obtain ⟨MI, hMI⟩ : ∃ MI : Nat, (MI : Int) = mi := ⟨mi.toNat, by omega⟩
  obtain ⟨S, hS⟩ : ∃ S : Nat, (S : Int) = s := ⟨s.toNat, by omega⟩
  have e25 : jsShl (some (y - 1980)) 25 = int32OfPat (Y * 33554432) := by
    rw [← hY, jsShl, toUint32_coe Y (by omega), Nat.mod_eq_of_lt (by omega)]
    norm_num
  have e21 : jsShl (some mo) 21 = ((MO * 2097152 : Nat) : Int) := by
    rw [← hMO]; exact jsShl_nat MO 21 (by omega)
  have e16 : jsShl (some d) 16 = ((D * 65536 : Nat) : Int) := by
    rw [← hD]; exact jsShl_nat D 16 (by omega)
  have e11 : jsShl (some h) 11 = ((H * 2048 : Nat) : Int) := by
    rw [← hH]; exact jsShl_nat H 11 (by omega)
  have e5 : jsShl (some mi) 5 = ((MI * 32 : Nat) : Int) := by
    rw [← hMI]; exact jsShl_nat MI 5 (by omega)
  have efdiv : Int.fdiv s 2 = ((S / 2 : Nat) : Int) := by
    rw [← hS, Int.fdiv_eq_ediv _ (by norm_num)]
    omega
  set P : Nat := Y * 33554432 + MO * 2097152 + D * 65536 + H * 2048
      + MI * 32 + S / 2 with hPdef
  have hpat : toUint32 (some (ZipDateTime.toInt ⟨y, mo, d, h, mi, s⟩)) = P := by
    rw [ZipDateTime.toInt]
    simp only
    rw [e25, e21, e16, e11, e5, efdiv]
    simp only [int32OfPat, toUint32]
    split_ifs <;> omega
  simp only [ZipDateTime.fromInt, jsShrU, hpat, ZipDateTime.mk.injEq]
  refine ⟨?_, ?_, ?_, ?_, ?_, ?_⟩ <;> omega

/-- C4: for a timestamp whose fields fit the packed bit widths (these are
the only timestamps the data model's packed format represents), the round
trip `fromInt (toInt t)` is the identity when the seconds are even and in
[0, 58], and loses exactly one second when the seconds are odd. -/
theorem c4_datetime_roundtrip (t : ZipDateTime)
    (hy1 : 1980 ≤ t.year) (hy2 : t.year < 2108)
    (hmo1 : 0 ≤ t.month) (hmo2 : t.month < 16)
    (hd1 : 0 ≤ t.day) (hd2 : t.day < 32)
    (hh1 : 0 ≤ t.hour) (hh2 : t.hour < 32)
    (hmi1 : 0 ≤ t.minute) (hmi2 : t.minute < 64)
    (hs1 : 0 ≤ t.second) (hs2 : t.second ≤ 59) :
    (t.second % 2 = 0 → ZipDateTime.fromInt (some t.toInt) = t) ∧
    (t.second % 2 = 1 → ZipDateTime.fromInt (some t.toInt) =
      { t with second := t.second - 1 }) := by
  have hmain := ZipDateTime.fromInt_toInt t hy1 hy2 hmo1 hmo2 hd1 hd2 hh1 hh2
    hmi1 hmi2 hs1 hs2
  constructor
  · intro hpar
    rw [hmain, hpar, sub_zero]
  · intro hpar
    rw [hmain, hpar]

/-- Witness for C4 at concrete even- and odd-second timestamps. -/
theorem c4_datetime_roundtrip_witness :
    (ZipDateTime.fromInt (some ((⟨2026, 10, 12, 1, 2, 4⟩ : ZipDateTime).toInt))
      = ⟨2026, 10, 12, 1, 2, 4⟩) ∧
    (ZipDateTime.fromInt (some ((⟨2026, 10, 12, 1, 2, 5⟩ : ZipDateTime).toInt))
      = ⟨2026, 10, 12, 1, 2, 4⟩) :=
  ⟨(c4_datetime_roundtrip ⟨2026, 10, 12, 1, 2, 4⟩ (by decide) (by decide)
      (by decide) (by decide) (by decide) (by decide) (by decide) (by decide)
      (by decide) (by decide) (by decide) (by decide)).1 (by decide),
   (c4_datetime_roundtrip ⟨2026, 10, 12, 1, 2, 5⟩ (by decide) (by decide)
      (by decide) (by decide) (by decide) (by decide) (by decide) (by decide)
      (by decide) (by decide) (by decide) (by decide)).2 (by decide)⟩

/-! ## C7: CRC-32 -/


theorem xor_two_mul_mod_two (c d : Nat) : (c ^^^ 2 * d) % 2 = c % 2 := by
  have h := @Nat.xor_mod_two_eq_one c (2 * d)
  omega

theorem crcStep_xor_shift (c d : Nat) : crcStep (c ^^^ 2 * d) = crcStep c ^^^ d := by
  unfold crcStep
  have hdiv : (c ^^^ 2 * d) / 2 = c / 2 ^^^ d := by
    rw [Nat.xor_div_two]
    congr 1
    omega
  rw [xor_two_mul_mod_two, hdiv]
  split_ifs with hp
  · rw [Nat.xor_assoc]
  · rfl

theorem crcSteps_xor_shift (k : Nat) : ∀ c d : Nat,
    crcSteps k (c ^^^ 2 ^ k * d) = crcSteps k c ^^^ d := by
  induction k with
  | zero => intro c d; simp [crcSteps]
  | succ k ih =>
    intro c d
    have h2 : 2 ^ (k + 1) * d = 2 * (2 ^ k * d) := by ring
    rw [crcSteps, crcSteps, h2, crcStep_xor_shift, ih]

theorem mod_xor_mul_div (c : Nat) : c % 256 ^^^ 256 * (c / 256) = c := by
  apply Nat.eq_of_testBit_eq
  intro i
  rw [show (256 : Nat) * (c / 256) = (c >>> 8) <<< 8 by
    rw [Nat.shiftRight_eq_div_pow, Nat.shiftLeft_eq]; ring]
  rw [show (256 : Nat) = 2 ^ 8 by norm_num]
  simp only [Nat.testBit_xor, Nat.testBit_mod_two_pow, Nat.testBit_shiftLeft,
    Nat.testBit_shiftRight]
  rcases Nat.lt_or_ge i 8 with hi | hi
  · simp [hi, Nat.not_le_of_lt hi]
  · simp [hi, Nat.not_lt_of_le hi, Nat.add_sub_cancel' hi]

theorem xor_small_mod (c b : Nat) (hb : b < 256) :
    (c ^^^ b) % 256 = c % 256 ^^^ b := by
  apply Nat.eq_of_testBit_eq
  intro i
  rw [show (256 : Nat) = 2 ^ 8 by norm_num]
  simp only [Nat.testBit_xor, Nat.testBit_mod_two_pow]
  rcases Nat.lt_or_ge i 8 with hi | hi
  · simp [hi]
  · have hb2 : b < 2 ^ i :=
      lt_of_lt_of_le hb (Nat.pow_le_pow_right (by norm_num : 0 < 2) hi)
    simp [Nat.not_lt_of_le hi, Nat.testBit_lt_two_pow hb2]

/-- Modelled from the spec: the standard reflected CRC-32 step for one byte,
bit at a time — fold the byte into the low bits, then eight shift-and-
conditionally-xor-`0xEDB88320` iterations. -/
def crc32RefUpdate (c b : Nat) : Nat := crcSteps 8 (c ^^^ b)

/-- Modelled from the spec: the standard reflected CRC-32 of a byte
sequence, with initial and final xor `0xFFFFFFFF`, as an unsigned value. -/
def crc32Reference (bytes : List Nat) : Nat :=
  (bytes.foldl crc32RefUpdate 0xffffffff) ^^^ 0xffffffff

theorem crcUpdate_eq_ref (c b : Nat) (hb : b < 256) :
    crcUpdate c b = crc32RefUpdate c b := by
  unfold crcUpdate crc32RefUpdate crc32table
  have hc : c ^^^ b = (c % 256 ^^^ b) ^^^ 2 ^ 8 * (c / 256) := by
    conv_lhs => rw [← mod_xor_mul_div c]
    rw [Nat.xor_assoc, Nat.xor_comm (256 * (c / 256)) b, ← Nat.xor_assoc]
    norm_num
  rw [xor_small_mod c b hb, hc, crcSteps_xor_shift]

theorem foldl_crc_eq_ref (bytes : List Nat) (h : ∀ b ∈ bytes, b < 256) :
    ∀ c : Nat, bytes.foldl crcUpdate c = bytes.foldl crc32RefUpdate c := by
  induction bytes with
  | nil => intro c; rfl
  | cons b rest ih =>
    intro c
    rw [List.foldl_cons, List.foldl_cons,
      crcUpdate_eq_ref c b (h b (List.mem_cons_self b rest)),
      ih (fun x hx => h x (List.mem_cons_of_mem b hx))]

theorem calcCrc32Pat_eq_ref (bytes : List Nat) (h : ∀ b ∈ bytes, b < 256) :
    calcCrc32Pat bytes = crc32Reference bytes := by
  rw [calcCrc32Pat, crc32Reference, foldl_crc_eq_ref bytes h]

/-- C7 counterexample: at the single byte `0`, `calc` returns a negative
number (the JavaScript `^` in `return c ^ 0xffffffff` yields a signed
32-bit integer), so it is not the unsigned CRC-32 value the claim states. -/
theorem c7_crc32_counterexample :
    calcCrc32 [0] < 0 ∧ calcCrc32 [0] ≠ (crc32Reference [0] : Int) := by
  decide

/-- C7 (amended): `calc` computes the standard reflected CRC-32 (polynomial
`0xEDB88320`, initial and final xor `0xFFFFFFFF`) of a byte sequence, but
returns it reinterpreted as a *signed* 32-bit integer rather than a uint32;
and `calc` of the empty sequence equals 0. -/
theorem c7_crc32_standard_signed (bytes : List Nat)
    (h : ∀ b ∈ bytes, b < 256) :
    calcCrc32 bytes = int32OfPat (crc32Reference bytes) ∧ calcCrc32 [] = 0 := by
  constructor
  · rw [calcCrc32, calcCrc32Pat_eq_ref bytes h]
  · decide

/-- Witness for C7 at a concrete byte sequence. -/
theorem c7_crc32_standard_signed_witness :
    (∀ b ∈ [104, 105, 33], b < 256) ∧
    (calcCrc32 [104, 105, 33] = int32OfPat (crc32Reference [104, 105, 33]) ∧
      calcCrc32 [] = 0) :=
  ⟨by decide, c7_crc32_standard_signed [104, 105, 33] (by decide)⟩


/-! ## C2: missing EOCD signature -/

/-- C2 (code bug evidence): a 30-byte all-zero buffer contains no EOCD
signature (`findLastIndex` returns `-1`), yet the `Extractor` constructor
*succeeds*: the unchecked `-1` is accepted by `moveTo` and the EOCD record is
parsed from offset `-1` (its first read yields `undefined`, which
`readAsUint` turns into 0), producing a fully-constructed garbage extractor
with zero entries instead of a format error. -/
theorem c2_missing_eocd_not_fatal :
    findLastSigIdx (List.replicate 30 0) = -1 ∧
    (Extractor.construct (List.replicate 30 0)).isOk = true ∧
    Extractor.construct (List.replicate 30 0) =
      .ok ⟨{ signature := some 0, diskId := some 0, firstDiskId := some 0,
             numOfFiles := some 0, totalNumOfFiles := some 0,
             cdSize := some 0, cdOffset := some 0, commentBytes := [] },
           [], []⟩ := by
  refine ⟨by decide, by decide, by rfl⟩

/-! ## C8: pick with an out-of-range index -/

/-- C8: `pick` at an index that addresses no entry (at or past the entry
count, or below `-count`, which `Array.prototype.at` resolves from the end)
fails with an error message naming that index; and, the extractor being
untouched by `pick` (the source reads `contents.at(index)` and never writes),
every in-range index whose entry uses a supported method still succeeds. -/
theorem c8_pick_index_error (decompress : List Nat → List Nat)
    (e : Extractor) (i : Int)
    (hout : (e.contents.length : Int) ≤ i ∨ i < -(e.contents.length : Int)) :
    Extractor.pick decompress e i =
      .error ("No content at the index: " ++ toString i) ∧
    (∀ j : Nat, ∀ header : LocalFileHeader, ∀ body : List Nat,
      e.contents[j]? = some (header, body) →
      (header.method = some 0 ∨ header.method = some 8) →
      (Extractor.pick decompress e (j : Int)).isOk = true) := by
  constructor
  · rw [Extractor.pick]
    have hat : jsAt e.contents i = none := by
      rw [jsAt]
      rcases hout with hge | hlt
      · rw [if_pos (by omega)]
        apply List.getElem?_eq_none
        omega
      · rw [if_neg (by omega), if_neg (by omega)]
    rw [hat]
  · intro j header body hget hm
    have hat : jsAt e.contents (j : Int) = some (header, body) := by
      rw [jsAt, if_pos (by omega)]
      simpa using hget
    rcases hm with h0 | h8
    · simp [Extractor.pick, hat, h0, Except.isOk, Except.toBool]
    · by_cases h0 : header.method = some 0
      · simp [Extractor.pick, hat, h0, Except.isOk, Except.toBool]
      · simp [Extractor.pick, hat, h0, h8, Except.isOk, Except.toBool]

/-- A one-entry extractor used to witness C8. -/
def sampleExtractor : Extractor :=
  ⟨{}, [], [({ method := some 0, lastModified := ⟨2026, 1, 2, 3, 4, 6⟩,
               fileNameBytes := [97] }, [5, 6])]⟩

/-- Witness for C8: index 1 (= the entry count) fails naming the index, and
the in-range index 0 still succeeds. -/
theorem c8_pick_index_error_witness :
    Extractor.pick id sampleExtractor 1 =
      .error ("No content at the index: " ++ toString (1 : Int)) ∧
    (Extractor.pick id sampleExtractor 0).isOk = true := by
  have h := c8_pick_index_error id sampleExtractor 1 (by decide)
  exact ⟨h.1, h.2 0 { method := some 0, lastModified := ⟨2026, 1, 2, 3, 4, 6⟩,
                      fileNameBytes := [97] } [5, 6] (by decide) (by decide)⟩


/-! ## C9: Builder.remove -/

/-- `splice` on a valid nonnegative range reduces to take/drop. -/
theorem spliceSplit_nat {α : Type} (l : List α) (s c : Nat)
    (hc : s + c ≤ l.length) :
    spliceSplit l (s : Int) (c : Int) =
      ((l.drop s).take c, l.take s ++ l.drop (s + c)) := by
  have hs' : (if (s : Int) < 0 then (max ((l.length : Int) + (s : Int)) 0).toNat
      else min (s : Int).toNat l.length) = s := by
    rw [if_neg (by omega)]
    omega
  simp only [spliceSplit]
  rw [hs']
  have hd : (min (max (c : Int) 0) ((l.length : Int) - (s : Nat))).toNat = c := by
    omega
  rw [hd]

/-- C9: for a valid index, `remove(index, count)` removes exactly `count`
entries from the directory-entry list but exactly one pair from the contents
list, both starting at `index`, and returns the removed directory entries'
file names (their path byte sequences; decoding them is host
`TextDecoder` functionality). -/
theorem c9_remove_splice (b : Builder) (index count : Nat)
    (hcd : index + count ≤ b.centralDirectory.length)
    (hct : index < b.contents.length) :
    (b.remove (index : Int) (count : Int)).2.centralDirectory =
        b.centralDirectory.take index
          ++ b.centralDirectory.drop (index + count) ∧
    (b.remove (index : Int) (count : Int)).2.centralDirectory.length =
        b.centralDirectory.length - count ∧
    (b.remove (index : Int) (count : Int)).2.contents =
        b.contents.take index ++ b.contents.drop (index + 1) ∧
    (b.remove (index : Int) (count : Int)).2.contents.length =
        b.contents.length - 1 ∧
    (b.remove (index : Int) (count : Int)).1 =
        ((b.centralDirectory.drop index).take count).map
          (fun e => e.fileNameBytes) := by
  have h1 := spliceSplit_nat b.centralDirectory index count hcd
  have h2 := spliceSplit_nat b.contents index 1 (by omega)
  rw [Nat.cast_one] at h2
  refine ⟨?_, ?_, ?_, ?_, ?_⟩
  · simp [Builder.remove, h1]
  · simp [Builder.remove, h1]
    omega
  · simp [Builder.remove, h2]
  · simp [Builder.remove, h2]
    omega
  · simp [Builder.remove, h1]

/-- A concrete directory entry for witnesses. -/
def sampleCd (name : List Nat) : CentralDirectoryEntry :=
  { lastModified := ⟨2026, 1, 2, 3, 4, 6⟩, fileNameBytes := name }

/-- A concrete local header for witnesses. -/
def sampleLfh (name : List Nat) : LocalFileHeader :=
  { lastModified := ⟨2026, 1, 2, 3, 4, 6⟩, fileNameBytes := name }

/-- A three-entry Builder state for the C9 witness (spec scenario E). -/
def builder3 : Builder :=
  { centralDirectory := [sampleCd [97], sampleCd [98], sampleCd [99]],
    contents := [(sampleLfh [97], [1]), (sampleLfh [98], [2]),
                 (sampleLfh [99], [3])] }

/-- Witness for C9: `remove(0)` on a 3-entry Builder leaves 2 directory
entries and 2 content entries and returns the first entry's path. -/
theorem c9_remove_splice_witness :
    (builder3.remove 0 1).2.centralDirectory.length = 2 ∧
    (builder3.remove 0 1).2.contents.length = 2 ∧
    (builder3.remove 0 1).1 = [[97]] := by
  have h := c9_remove_splice builder3 0 1 (by decide) (by decide)
  exact ⟨h.2.1, h.2.2.2.1, h.2.2.2.2⟩

/-! ## C10: flags of appended entries -/

/-- C10: every entry appended by `Builder.append` carries flags 3072 in both
its local header and its directory entry: the `LocalFileHeader` field
initializer sets bit 10 (`flags = 1024`, a reserved bit) and `append` sets
bit 11 (UTF-8) via `isUtf8 = true`; no other bit is ever set. -/
theorem c10_append_flags (now : ZipDateTime) (compress : List Nat → List Nat)
    (b : Builder) (buf : List Nat) (opt : AppendOptions)
    (hm : opt.method.getD 8 = 0 ∨ opt.method.getD 8 = 8) :
    (b.append now compress buf opt).isOk = true ∧
    (∀ n : Nat, ∀ b' : Builder, b.append now compress buf opt = .ok (n, b') →
      b'.contents.getLast?.map (fun p => p.1.flags) = some (some 3072) ∧
      b'.centralDirectory.getLast?.map (fun e => e.flags) = some (some 3072)) := by
  have hf : setFlag (some 1024) 11 true = some 3072 := by decide
  constructor
  · rcases hm with h | h
    · simp [Builder.append, h, Except.isOk, Except.toBool]
    · simp [Builder.append, h, Except.isOk, Except.toBool]
  · intro n b' heq
    simp only [Builder.append] at heq
    split at heq
    · cases heq
      constructor
      · simp [hf, List.getLast?_concat]
      · simp [hf, List.getLast?_concat]
    · split at heq
      · cases heq
        constructor
        · simp [hf, List.getLast?_concat]
        · simp [hf, List.getLast?_concat]
      · cases heq

/-- Witness for C10 on an empty Builder with a stored (method 0) file. -/
theorem c10_append_flags_witness :
    ((({} : Builder).append ⟨2026, 1, 2, 3, 4, 6⟩ id [1, 2]
        { filepath := [97], method := some 0 }).isOk = true) ∧
    (∀ n : Nat, ∀ b' : Builder,
      ({} : Builder).append ⟨2026, 1, 2, 3, 4, 6⟩ id [1, 2]
        { filepath := [97], method := some 0 } = .ok (n, b') →
      b'.contents.getLast?.map (fun p => p.1.flags) = some (some 3072) ∧
      b'.centralDirectory.getLast?.map (fun e => e.flags) = some (some 3072)) :=
  c10_append_flags ⟨2026, 1, 2, 3, 4, 6⟩ id {} [1, 2]
    { filepath := [97], method := some 0 } (by decide)


/-! ## Cursor parse lemmas: reading back serialized bytes -/

theorem ok_bind {α β : Type} (a : α) (f : α → Except String β) :
    (Except.ok a : Except String α) >>= f = f a := rfl

theorem read_ok {B : List Nat} {o : Int} (ho : 0 ≤ o) {b : Nat}
    {rest : List Nat} (h : B.drop o.toNat = b :: rest) :
    ByteArrayCursor.read ⟨B, o⟩ = .ok (some (b : Int), ⟨B, o + 1⟩) ∧
    B.drop (o + 1).toNat = rest := by
  have hlen : o.toNat < B.length := by
    by_contra hc
    rw [List.drop_eq_nil_of_le (by omega)] at h
    exact List.noConfusion h
  have hb : B[o.toNat]? = some b := by
    have h0 : (B.drop o.toNat)[0]? = some b := by rw [h]; simp
    rwa [List.getElem?_drop, Nat.add_zero] at h0
  have hsetOff : ByteArrayCursor.setOff ⟨B, o⟩ (some (o + 1)) =
      .ok ⟨B, o + 1⟩ := by
    rw [ByteArrayCursor.setOff]
    simp only
    rw [if_pos (by omega)]
  constructor
  · rw [ByteArrayCursor.read]
    simp [hsetOff, ok_bind, if_pos ho, hb]
  · have h1 : (o + 1).toNat = o.toNat + 1 := by omega
    rw [h1, ← List.drop_drop, h]
    rfl


set_option maxHeartbeats 1000000 in
/-- Recombining the four little-endian bytes of a 32-bit pattern through
`readAsUint`'s arithmetic gives back the pattern. -/
theorem uint_read_value (u : Nat) (hu : u < 4294967296) :
    toUint32 (jsAdd (jsAdd (jsAdd (some ((u % 256 : Nat) : Int))
        (some (jsShl (some ((u / 256 % 256 : Nat) : Int)) 8)))
        (some (jsShl (some ((u / 65536 % 256 : Nat) : Int)) 16)))
        (some (jsShl (some ((u / 16777216 % 256 : Nat) : Int)) 24))) = u := by
  simp only [jsAdd, jsShl, toUint32, int32OfPat]
  split_ifs <;> omega

set_option maxHeartbeats 1000000 in
/-- The same recombination through `readAsInt` yields the signed 32-bit
reinterpretation of the pattern. -/
theorem int_read_value (u : Nat) (hu : u < 4294967296) :
    jsAdd (jsAdd (jsAdd (some ((u % 256 : Nat) : Int))
        (some (jsShl (some ((u / 256 % 256 : Nat) : Int)) 8)))
        (some (jsShl (some ((u / 65536 % 256 : Nat) : Int)) 16)))
        (some (jsShl (some ((u / 16777216 % 256 : Nat) : Int)) 24))
      = some (int32OfPat u) := by
  simp only [jsAdd, jsShl, toUint32, int32OfPat, Option.some.injEq]
  split_ifs <;> omega

set_option maxHeartbeats 1000000 in
/-- Recombining the two bytes written by `writeUshort`. -/
theorem ushort_read_value (s : JsNum) :
    jsAdd (some ((toUint32 s % 256 : Nat) : Int))
        (some (jsShl (some ((toUint32 s / 256 % 256 : Nat) : Int)) 8))
      = some ((toUint32 s % 65536 : Nat) : Int) := by
  simp only [jsAdd, jsShl, toUint32, int32OfPat, Option.some.injEq]
  split_ifs <;> omega

/-- Reading back the two bytes of `ushortBytes s` yields the low 16 bits of
the 32-bit pattern of `s` and advances the cursor by 2. -/
theorem readUshort_of_ushortBytes {B : List Nat} {o : Int} (ho : 0 ≤ o)
    {s : JsNum} {rest : List Nat}
    (h : B.drop o.toNat = ushortBytes s ++ rest) :
    ByteArrayCursor.readAsUshort ⟨B, o⟩ =
      .ok (some ((toUint32 s % 65536 : Nat) : Int), ⟨B, o + 2⟩) ∧
    B.drop (o + 2).toNat = rest := by
  simp only [ushortBytes, List.cons_append, List.nil_append] at h
  obtain ⟨r0, h0⟩ := read_ok ho h
  obtain ⟨r1, h1⟩ := read_ok (by omega) h0
  have e2 : o + 1 + 1 = o + 2 := by ring
  rw [e2] at r1 h1
  refine ⟨?_, h1⟩
  simp only [ByteArrayCursor.readAsUshort, r0, r1, ok_bind,
    ushort_read_value s]

/-- Reading back the four bytes of `uintBytes x` through `readAsUint` yields
the 32-bit pattern of `x` and advances the cursor by 4. -/
theorem readUint_of_uintBytes {B : List Nat} {o : Int} (ho : 0 ≤ o)
    {x : JsNum} {rest : List Nat}
    (h : B.drop o.toNat = uintBytes x ++ rest) :
    ByteArrayCursor.readAsUint ⟨B, o⟩ = .ok (toUint32 x, ⟨B, o + 4⟩) ∧
    B.drop (o + 4).toNat = rest := by
  simp only [uintBytes, List.cons_append, List.nil_append] at h
  obtain ⟨r0, h0⟩ := read_ok ho h
  obtain ⟨r1, h1⟩ := read_ok (by omega) h0
  rw [show o + 1 + 1 = o + 2 by ring] at r1 h1
  obtain ⟨r2, h2⟩ := read_ok (by omega) h1
  rw [show o + 2 + 1 = o + 3 by ring] at r2 h2
  obtain ⟨r3, h3⟩ := read_ok (by omega) h2
  rw [show o + 3 + 1 = o + 4 by ring] at r3 h3
  refine ⟨?_, h3⟩
  simp only [ByteArrayCursor.readAsUint, ByteArrayCursor.readAsInt,
    r0, r1, r2, r3, ok_bind]
  rw [uint_read_value (toUint32 x) (toUint32_lt x)]

/-- Reading back the four bytes of `uintBytes x` through `readAsInt` yields
the signed 32-bit view of the pattern of `x` and advances the cursor by 4. -/
theorem readInt_of_uintBytes {B : List Nat} {o : Int} (ho : 0 ≤ o)
    {x : JsNum} {rest : List Nat}
    (h : B.drop o.toNat = uintBytes x ++ rest) :
    ByteArrayCursor.readAsInt ⟨B, o⟩ =
      .ok (some (int32OfPat (toUint32 x)), ⟨B, o + 4⟩) ∧
    B.drop (o + 4).toNat = rest := by
  simp only [uintBytes, List.cons_append, List.nil_append] at h
  obtain ⟨r0, h0⟩ := read_ok ho h
  obtain ⟨r1, h1⟩ := read_ok (by omega) h0
  rw [show o + 1 + 1 = o + 2 by ring] at r1 h1
  obtain ⟨r2, h2⟩ := read_ok (by omega) h1
  rw [show o + 2 + 1 = o + 3 by ring] at r2 h2
  obtain ⟨r3, h3⟩ := read_ok (by omega) h2
  rw [show o + 3 + 1 = o + 4 by ring] at r3 h3
  refine ⟨?_, h3⟩
  simp only [ByteArrayCursor.readAsInt, r0, r1, r2, r3, ok_bind]
  rw [int_read_value (toUint32 x) (toUint32_lt x)]

/-- `subarray` over a prefix of the remaining bytes returns exactly that
prefix and advances the cursor past it. -/
theorem subarray_of_append {B : List Nat} {o : Int} (ho : 0 ≤ o)
    {pre rest : List Nat} (h : B.drop o.toNat = pre ++ rest)
    (hb : o + pre.length ≤ (B.length : Int)) :
    ByteArrayCursor.subarray ⟨B, o⟩ (some (pre.length : Int)) =
      .ok (pre, ⟨B, o + pre.length⟩) ∧
    B.drop (o + pre.length).toNat = rest := by
  have hsub : (B.take ((o + pre.length).toNat)).drop o.toNat = pre := by
    rw [show (o + pre.length).toNat = o.toNat + pre.length by omega,
      ← List.take_drop, h, List.take_left]
  have hrest : B.drop (o + pre.length).toNat = rest := by
    rw [show (o + pre.length).toNat = o.toNat + pre.length by omega,
      ← List.drop_drop, h, List.drop_left]
  refine ⟨?_, hrest⟩
  rw [ByteArrayCursor.subarray]
  simp only [jsAdd]
  have hclampb : clampIdx B.length o = o.toNat := by
    rw [clampIdx, if_neg (by omega)]
    omega
  have hclampe : clampIdx B.length (o + pre.length) = (o + pre.length).toNat := by
    rw [clampIdx, if_neg (by omega)]
    omega
  have hsetOff : ByteArrayCursor.setOff ⟨B, o⟩ (some (o + pre.length)) =
      .ok ⟨B, o + pre.length⟩ := by
    rw [ByteArrayCursor.setOff]
    simp only
    rw [if_pos hb]
  rw [hclampb, hclampe, hsetOff, ok_bind, hsub]

/-- `moveTo` to a valid in-range index. -/
theorem moveTo_some {B : List Nat} {o v : Int} (h : v ≤ (B.length : Int)) :
    ByteArrayCursor.moveTo ⟨B, o⟩ (some v) = .ok ⟨B, v⟩ := by
  rw [ByteArrayCursor.moveTo, ByteArrayCursor.setOff]
  simp only
  rw [if_pos h]


/-! ## Record round-trip lemmas -/

/-- Normal form of a 16-bit field after serialize-then-parse: the low 16
bits of the 32-bit pattern. -/
def reparseU16 (x : JsNum) : JsNum := some ((toUint32 x % 65536 : Nat) : Int)

/-- Normal form of a 32-bit field after serialize-then-parse. -/
def reparseU32 (x : JsNum) : JsNum := some ((toUint32 x : Nat) : Int)

/-- The record obtained by parsing `h.toBytes`: every fixed field reduced to
its persisted width, variable byte ranges unchanged. -/
def LocalFileHeader.reparse (h : LocalFileHeader) : LocalFileHeader where
  signature := reparseU32 h.signature
  versionNeeded := reparseU16 h.versionNeeded
  flags := reparseU16 h.flags
  method := reparseU16 h.method
  lastModified :=
    ZipDateTime.fromInt (some ((toUint32 (some h.lastModified.toInt) : Nat) : Int))
  crc32 := reparseU32 h.crc32
  compressedSize := reparseU32 h.compressedSize
  uncompressedSize := reparseU32 h.uncompressedSize
  fileNameBytes := h.fileNameBytes
  extraFieldBytes := h.extraFieldBytes

theorem lfh_toBytes_length (h : LocalFileHeader) :
    h.toBytes.length =
      30 + h.fileNameBytes.length + h.extraFieldBytes.length := by
  simp [LocalFileHeader.toBytes, uintBytes, ushortBytes]
  omega

theorem lfh_parse_serialized {B : List Nat} {o : Int} (ho : 0 ≤ o)
    (h : LocalFileHeader) {rest : List Nat}
    (hdrop : B.drop o.toNat = h.toBytes ++ rest)
    (hn : h.fileNameBytes.length < 65536)
    (he : h.extraFieldBytes.length < 65536) :
    LocalFileHeader.fromCursor ⟨B, o⟩ =
      .ok (h.reparse,
        ⟨B, o + ((30 + h.fileNameBytes.length + h.extraFieldBytes.length
          : Nat) : Int)⟩) ∧
    B.drop (o + ((30 + h.fileNameBytes.length + h.extraFieldBytes.length
      : Nat) : Int)).toNat = rest := by
  have hlen0 : B.length - o.toNat = h.toBytes.length + rest.length := by
    have := congrArg List.length hdrop
    simpa using this
  rw [lfh_toBytes_length] at hlen0
  have hblen : o.toNat + 30 + h.fileNameBytes.length
      + h.extraFieldBytes.length + rest.length = B.length := by omega
  rw [LocalFileHeader.toBytes] at hdrop
  simp only [List.append_assoc] at hdrop
  obtain ⟨r1, hd⟩ := readUint_of_uintBytes ho hdrop
  obtain ⟨r2, hd⟩ := readUshort_of_ushortBytes (by omega) hd
  obtain ⟨r3, hd⟩ := readUshort_of_ushortBytes (by omega) hd
  obtain ⟨r4, hd⟩ := readUshort_of_ushortBytes (by omega) hd
  obtain ⟨r5, hd⟩ := readUint_of_uintBytes (by omega) hd
  obtain ⟨r6, hd⟩ := readUint_of_uintBytes (by omega) hd
  obtain ⟨r7, hd⟩ := readUint_of_uintBytes (by omega) hd
  obtain ⟨r8, hd⟩ := readUint_of_uintBytes (by omega) hd
  obtain ⟨r9, hd⟩ := readUshort_of_ushortBytes (by omega) hd
  obtain ⟨r10, hd⟩ := readUshort_of_ushortBytes (by omega) hd
  have hfn : (toUint32 (some ((h.fileNameBytes.length : Nat) : Int))
      % 65536 : Nat) = h.fileNameBytes.length := by
    rw [toUint32_coe _ (by omega)]
    omega
  have hef : (toUint32 (some ((h.extraFieldBytes.length : Nat) : Int))
      % 65536 : Nat) = h.extraFieldBytes.length := by
    rw [toUint32_coe _ (by omega)]
    omega
  obtain ⟨s1, hd⟩ := subarray_of_append (by omega) hd (by omega)
  obtain ⟨s2, hd⟩ := subarray_of_append (by omega) hd (by omega)
  constructor
  · simp only [LocalFileHeader.fromCursor, r1, r2, r3, r4, r5, r6, r7, r8,
      r9, r10, hfn, hef, s1, s2, ok_bind]
    simp only [LocalFileHeader.reparse, reparseU16, reparseU32,
      Except.ok.injEq, Prod.mk.injEq, ByteArrayCursor.mk.injEq]
    refine ⟨trivial, trivial, ?_⟩
    push_cast
    ring
  · have heq : o + 4 + 2 + 2 + 2 + 4 + 4 + 4 + 4 + 2 + 2
        + (h.fileNameBytes.length : Int) + (h.extraFieldBytes.length : Int)
        = o + ((30 + h.fileNameBytes.length + h.extraFieldBytes.length
          : Nat) : Int) := by
      push_cast
      ring
    rw [heq] at hd
    exact hd


/-- The record obtained by parsing `e.toBytes` for a central directory
entry. -/
def CentralDirectoryEntry.reparse (e : CentralDirectoryEntry) :
    CentralDirectoryEntry where
  signature := reparseU32 e.signature
  versionMadeBy := reparseU16 e.versionMadeBy
  versionNeeded := reparseU16 e.versionNeeded
  flags := reparseU16 e.flags
  method := reparseU16 e.method
  lastModified :=
    ZipDateTime.fromInt (some ((toUint32 (some e.lastModified.toInt) : Nat) : Int))
  crc32 := reparseU32 e.crc32
  compressedSize := reparseU32 e.compressedSize
  uncompressedSize := reparseU32 e.uncompressedSize
  fileNameBytes := e.fileNameBytes
  extraFieldBytes := e.extraFieldBytes
  diskIdStart := reparseU16 e.diskIdStart
  internalAttributes := reparseU16 e.internalAttributes
  externalAttributes := reparseU32 e.externalAttributes
  headerOffset := reparseU32 e.headerOffset
  commentBytes := e.commentBytes

theorem cde_toBytes_length (e : CentralDirectoryEntry) :
    e.toBytes.length = 46 + e.fileNameBytes.length
      + e.extraFieldBytes.length + e.commentBytes.length := by
  simp [CentralDirectoryEntry.toBytes, uintBytes, ushortBytes]
  omega

theorem cde_parse_serialized {B : List Nat} {o : Int} (ho : 0 ≤ o)
    (e : CentralDirectoryEntry) {rest : List Nat}
    (hdrop : B.drop o.toNat = e.toBytes ++ rest)
    (hn : e.fileNameBytes.length < 65536)
    (he : e.extraFieldBytes.length < 65536)
    (hc : e.commentBytes.length < 65536) :
    CentralDirectoryEntry.fromCursor ⟨B, o⟩ =
      .ok (e.reparse,
        ⟨B, o + ((46 + e.fileNameBytes.length + e.extraFieldBytes.length
          + e.commentBytes.length : Nat) : Int)⟩) ∧
    B.drop (o + ((46 + e.fileNameBytes.length + e.extraFieldBytes.length
      + e.commentBytes.length : Nat) : Int)).toNat = rest := by
  have hlen0 : B.length - o.toNat = e.toBytes.length + rest.length := by
    have := congrArg List.length hdrop
    simpa using this
  rw [cde_toBytes_length] at hlen0
  have hblen : o.toNat + 46 + e.fileNameBytes.length
      + e.extraFieldBytes.length + e.commentBytes.length
      + rest.length = B.length := by omega
  rw [CentralDirectoryEntry.toBytes] at hdrop
  simp only [List.append_assoc] at hdrop
  obtain ⟨r1, hd⟩ := readUint_of_uintBytes ho hdrop
  obtain ⟨r2, hd⟩ := readUshort_of_ushortBytes (by omega) hd
  obtain ⟨r3, hd⟩ := readUshort_of_ushortBytes (by omega) hd
  obtain ⟨r4, hd⟩ := readUshort_of_ushortBytes (by omega) hd
  obtain ⟨r5, hd⟩ := readUshort_of_ushortBytes (by omega) hd
  obtain ⟨r6, hd⟩ := readUint_of_uintBytes (by omega) hd
  obtain ⟨r7, hd⟩ := readUint_of_uintBytes (by omega) hd
  obtain ⟨r8, hd⟩ := readUint_of_uintBytes (by omega) hd
  obtain ⟨r9, hd⟩ := readUint_of_uintBytes (by omega) hd
  obtain ⟨r10, hd⟩ := readUshort_of_ushortBytes (by omega) hd
  obtain ⟨r11, hd⟩ := readUshort_of_ushortBytes (by omega) hd
  obtain ⟨r12, hd⟩ := readUshort_of_ushortBytes (by omega) hd
  obtain ⟨r13, hd⟩ := readUshort_of_ushortBytes (by omega) hd
  obtain ⟨r14, hd⟩ := readUshort_of_ushortBytes (by omega) hd
  obtain ⟨r15, hd⟩ := readUint_of_uintBytes (by omega) hd
  obtain ⟨r16, hd⟩ := readUint_of_uintBytes (by omega) hd
  have hfn : (toUint32 (some ((e.fileNameBytes.length : Nat) : Int))
      % 65536 : Nat) = e.fileNameBytes.length := by
    rw [toUint32_coe _ (by omega)]
    omega
  have hef : (toUint32 (some ((e.extraFieldBytes.length : Nat) : Int))
      % 65536 : Nat) = e.extraFieldBytes.length := by
    rw [toUint32_coe _ (by omega)]
    omega
  have hcm : (toUint32 (some ((e.commentBytes.length : Nat) : Int))
      % 65536 : Nat) = e.commentBytes.length := by
    rw [toUint32_coe _ (by omega)]
    omega
  obtain ⟨s1, hd⟩ := subarray_of_append (by omega) hd (by omega)
  obtain ⟨s2, hd⟩ := subarray_of_append (by omega) hd (by omega)
  obtain ⟨s3, hd⟩ := subarray_of_append (by omega) hd (by omega)
  constructor
  · simp only [CentralDirectoryEntry.fromCursor, r1, r2, r3, r4, r5, r6, r7,
      r8, r9, r10, r11, r12, r13, r14, r15, r16, hfn, hef, hcm, s1, s2, s3,
      ok_bind]
    simp only [CentralDirectoryEntry.reparse, reparseU16, reparseU32,
      Except.ok.injEq, Prod.mk.injEq, ByteArrayCursor.mk.injEq]
    refine ⟨trivial, trivial, ?_⟩
    push_cast
    ring
  · have heq : o + 4 + 2 + 2 + 2 + 2 + 4 + 4 + 4 + 4 + 2 + 2 + 2 + 2 + 2
        + 4 + 4 + (e.fileNameBytes.length : Int)
        + (e.extraFieldBytes.length : Int) + (e.commentBytes.length : Int)
        = o + ((46 + e.fileNameBytes.length + e.extraFieldBytes.length
          + e.commentBytes.length : Nat) : Int) := by
      push_cast
      ring
    rw [heq] at hd
    exact hd

/-- The record obtained by parsing `r.toBytes` for the EOCD record. -/
def EndOfCentralDirectoryRecord.reparse (r : EndOfCentralDirectoryRecord) :
    EndOfCentralDirectoryRecord where
  signature := reparseU32 r.signature
  diskId := reparseU16 r.diskId
  firstDiskId := reparseU16 r.firstDiskId
  numOfFiles := reparseU16 r.numOfFiles
  totalNumOfFiles := reparseU16 r.totalNumOfFiles
  cdSize := reparseU32 r.cdSize
  cdOffset := reparseU32 r.cdOffset
  commentBytes := r.commentBytes

theorem eocd_toBytes_length (r : EndOfCentralDirectoryRecord) :
    r.toBytes.length = 22 + r.commentBytes.length := by
  simp [EndOfCentralDirectoryRecord.toBytes, uintBytes, ushortBytes]
  omega

theorem eocd_parse_serialized {B : List Nat} {o : Int} (ho : 0 ≤ o)
    (r : EndOfCentralDirectoryRecord) {rest : List Nat}
    (hdrop : B.drop o.toNat = r.toBytes ++ rest)
    (hc : r.commentBytes.length < 65536) :
    EndOfCentralDirectoryRecord.fromCursor ⟨B, o⟩ =
      .ok (r.reparse,
        ⟨B, o + ((22 + r.commentBytes.length : Nat) : Int)⟩) ∧
    B.drop (o + ((22 + r.commentBytes.length : Nat) : Int)).toNat = rest := by
  have hlen0 : B.length - o.toNat = r.toBytes.length + rest.length := by
    have := congrArg List.length hdrop
    simpa using this
  rw [eocd_toBytes_length] at hlen0
  have hblen : o.toNat + 22 + r.commentBytes.length + rest.length
      = B.length := by omega
  rw [EndOfCentralDirectoryRecord.toBytes] at hdrop
  simp only [List.append_assoc] at hdrop
  obtain ⟨r1, hd⟩ := readUint_of_uintBytes ho hdrop
  obtain ⟨r2, hd⟩ := readUshort_of_ushortBytes (by omega) hd
  obtain ⟨r3, hd⟩ := readUshort_of_ushortBytes (by omega) hd
  obtain ⟨r4, hd⟩ := readUshort_of_ushortBytes (by omega) hd
  obtain ⟨r5, hd⟩ := readUshort_of_ushortBytes (by omega) hd
  obtain ⟨r6, hd⟩ := readUint_of_uintBytes (by omega) hd
  obtain ⟨r7, hd⟩ := readUint_of_uintBytes (by omega) hd
  obtain ⟨r8, hd⟩ := readUshort_of_ushortBytes (by omega) hd
  have hcm : (toUint32 (some ((r.commentBytes.length : Nat) : Int))
      % 65536 : Nat) = r.commentBytes.length := by
    rw [toUint32_coe _ (by omega)]
    omega
  obtain ⟨s1, hd⟩ := subarray_of_append (by omega) hd (by omega)
  constructor
  · simp only [EndOfCentralDirectoryRecord.fromCursor, r1, r2, r3, r4, r5,
      r6, r7, r8, hcm, s1, ok_bind]
    simp only [EndOfCentralDirectoryRecord.reparse, reparseU16, reparseU32,
      Except.ok.injEq, Prod.mk.injEq, ByteArrayCursor.mk.injEq]
    refine ⟨trivial, trivial, ?_⟩
    push_cast
    ring
  · have heq : o + 4 + 2 + 2 + 2 + 2 + 4 + 4 + 2
        + (r.commentBytes.length : Int)
        = o + ((22 + r.commentBytes.length : Nat) : Int) := by
      push_cast
      ring
    rw [heq] at hd
    exact hd


/-! ## C3: record round trips -/

/-- A JavaScript number holding a value representable in 16 bits. -/
def isU16 : JsNum → Bool
  | some n => 0 ≤ n && n < 65536
  | none => false

/-- A JavaScript number holding a value representable in 32 bits. -/
def isU32 : JsNum → Bool
  | some n => 0 ≤ n && n < 4294967296
  | none => false

/-- A timestamp whose fields fit the packed bit widths, with even seconds
(the persisted precision). -/
def dtWF (t : ZipDateTime) : Bool :=
  1980 ≤ t.year && t.year < 2108 && 0 ≤ t.month && t.month < 16 &&
  0 ≤ t.day && t.day < 32 && 0 ≤ t.hour && t.hour < 32 &&
  0 ≤ t.minute && t.minute < 64 && 0 ≤ t.second && t.second ≤ 59 &&
  t.second % 2 == 0

theorem reparseU16_eq {x : JsNum} (h : isU16 x = true) : reparseU16 x = x := by
  cases x with
  | none => simp [isU16] at h
  | some n =>
    simp only [isU16, Bool.and_eq_true, decide_eq_true_eq] at h
    simp only [reparseU16, toUint32, Option.some.injEq]
    omega

theorem reparseU32_eq {x : JsNum} (h : isU32 x = true) : reparseU32 x = x := by
  cases x with
  | none => simp [isU32] at h
  | some n =>
    simp only [isU32, Bool.and_eq_true, decide_eq_true_eq] at h
    simp only [reparseU32, toUint32, Option.some.injEq]
    omega

/-- Serializing then re-parsing a well-formed timestamp through the packed
field is the identity. -/
theorem dt_repack {t : ZipDateTime} (h : dtWF t = true) :
    ZipDateTime.fromInt
      (some ((toUint32 (some t.toInt) : Nat) : Int)) = t := by
  simp only [dtWF, Bool.and_eq_true, decide_eq_true_eq, beq_iff_eq] at h
  obtain ⟨⟨⟨⟨⟨⟨⟨⟨⟨⟨⟨⟨h1, h2⟩, h3⟩, h4⟩, h5⟩, h6⟩, h7⟩, h8⟩, h9⟩, h10⟩,
    h11⟩, h12⟩, h13⟩ := h
  rw [ZipDateTime.fromInt_congr (toUint32_idem (some t.toInt)),
    ZipDateTime.fromInt_toInt t h1 h2 h3 h4 h5 h6 h7 h8 h9 h10 h11 h12, h13,
    sub_zero]

/-- Well-formedness of a local file header: every persisted numeric field in
its persisted width, timestamp in range with even seconds, variable ranges
shorter than 2^16. -/
def LocalFileHeader.WF (h : LocalFileHeader) : Bool :=
  isU32 h.signature && isU16 h.versionNeeded && isU16 h.flags &&
  isU16 h.method && dtWF h.lastModified && isU32 h.crc32 &&
  isU32 h.compressedSize && isU32 h.uncompressedSize &&
  h.fileNameBytes.length < 65536 && h.extraFieldBytes.length < 65536

/-- Well-formedness of a central directory entry. -/
def CentralDirectoryEntry.WF (e : CentralDirectoryEntry) : Bool :=
  isU32 e.signature && isU16 e.versionMadeBy && isU16 e.versionNeeded &&
  isU16 e.flags && isU16 e.method && dtWF e.lastModified &&
  isU32 e.crc32 && isU32 e.compressedSize && isU32 e.uncompressedSize &&
  isU16 e.diskIdStart && isU16 e.internalAttributes &&
  isU32 e.externalAttributes && isU32 e.headerOffset &&
  e.fileNameBytes.length < 65536 && e.extraFieldBytes.length < 65536 &&
  e.commentBytes.length < 65536

/-- Well-formedness of an EOCD record. -/
def EndOfCentralDirectoryRecord.WF (r : EndOfCentralDirectoryRecord) : Bool :=
  isU32 r.signature && isU16 r.diskId && isU16 r.firstDiskId &&
  isU16 r.numOfFiles && isU16 r.totalNumOfFiles && isU32 r.cdSize &&
  isU32 r.cdOffset && r.commentBytes.length < 65536

theorem lfh_reparse_eq (h : LocalFileHeader) (hw : h.WF = true) :
    h.reparse = h := by
  simp only [LocalFileHeader.WF, Bool.and_eq_true] at hw
  obtain ⟨⟨⟨⟨⟨⟨⟨⟨⟨h1, h2⟩, h3⟩, h4⟩, h5⟩, h6⟩, h7⟩, h8⟩, h9⟩, h10⟩ := hw
  simp only [LocalFileHeader.reparse]
  rw [reparseU32_eq h1, reparseU16_eq h2, reparseU16_eq h3, reparseU16_eq h4,
    dt_repack h5, reparseU32_eq h6, reparseU32_eq h7, reparseU32_eq h8]

theorem cde_reparse_eq (e : CentralDirectoryEntry) (hw : e.WF = true) :
    e.reparse = e := by
  simp only [CentralDirectoryEntry.WF, Bool.and_eq_true] at hw
  obtain ⟨⟨⟨⟨⟨⟨⟨⟨⟨⟨⟨⟨⟨⟨⟨h1, h2⟩, h3⟩, h4⟩, h5⟩, h6⟩, h7⟩, h8⟩, h9⟩, h10⟩,
    h11⟩, h12⟩, h13⟩, h14⟩, h15⟩, h16⟩ := hw
  simp only [CentralDirectoryEntry.reparse]
  rw [reparseU32_eq h1, reparseU16_eq h2, reparseU16_eq h3, reparseU16_eq h4,
    reparseU16_eq h5, dt_repack h6, reparseU32_eq h7, reparseU32_eq h8,
    reparseU32_eq h9, reparseU16_eq h10, reparseU16_eq h11,
    reparseU32_eq h12, reparseU32_eq h13]

theorem eocd_reparse_eq (r : EndOfCentralDirectoryRecord)
    (hw : r.WF = true) : r.reparse = r := by
  simp only [EndOfCentralDirectoryRecord.WF, Bool.and_eq_true] at hw
  obtain ⟨⟨⟨⟨⟨⟨⟨h1, h2⟩, h3⟩, h4⟩, h5⟩, h6⟩, h7⟩, h8⟩ := hw
  simp only [EndOfCentralDirectoryRecord.reparse]
  rw [reparseU32_eq h1, reparseU16_eq h2, reparseU16_eq h3, reparseU16_eq h4,
    reparseU16_eq h5, reparseU32_eq h6, reparseU32_eq h7]

set_option maxHeartbeats 1000000 in
/-- C3: for each record kind, parsing the serializer's output reproduces
every persisted field (the parsed record equals the original, which carries
exactly the persisted fields), the cursor ends exactly past the record, and
the serialized byte count is the fixed prefix length (30 / 46 / 22) plus the
lengths of the variable byte ranges. -/
theorem c3_record_roundtrips :
    (∀ h : LocalFileHeader, h.WF = true →
      LocalFileHeader.fromCursor ⟨h.toBytes, 0⟩ =
        .ok (h, ⟨h.toBytes, (h.toBytes.length : Int)⟩) ∧
      h.toBytes.length =
        30 + h.fileNameBytes.length + h.extraFieldBytes.length) ∧
    (∀ e : CentralDirectoryEntry, e.WF = true →
      CentralDirectoryEntry.fromCursor ⟨e.toBytes, 0⟩ =
        .ok (e, ⟨e.toBytes, (e.toBytes.length : Int)⟩) ∧
      e.toBytes.length = 46 + e.fileNameBytes.length
        + e.extraFieldBytes.length + e.commentBytes.length) ∧
    (∀ r : EndOfCentralDirectoryRecord, r.WF = true →
      EndOfCentralDirectoryRecord.fromCursor ⟨r.toBytes, 0⟩ =
        .ok (r, ⟨r.toBytes, (r.toBytes.length : Int)⟩) ∧
      r.toBytes.length = 22 + r.commentBytes.length) := by
  refine ⟨fun h hw => ?_, fun e hw => ?_, fun r hw => ?_⟩
  · have hw' := hw
    simp only [LocalFileHeader.WF, Bool.and_eq_true, decide_eq_true_eq] at hw'
    obtain ⟨hparse, -⟩ := @lfh_parse_serialized h.toBytes 0
      (by omega) h []
      (by simp only [Int.toNat_zero, List.drop_zero, List.append_nil])
      (by omega) (by omega)
    rw [lfh_reparse_eq h hw] at hparse
    refine ⟨?_, lfh_toBytes_length h⟩
    rw [hparse, lfh_toBytes_length h]
    norm_num
  · have hw' := hw
    simp only [CentralDirectoryEntry.WF, Bool.and_eq_true,
      decide_eq_true_eq] at hw'
    obtain ⟨hparse, -⟩ := @cde_parse_serialized e.toBytes 0
      (by omega) e []
      (by simp only [Int.toNat_zero, List.drop_zero, List.append_nil])
      (by omega) (by omega) (by omega)
    rw [cde_reparse_eq e hw] at hparse
    refine ⟨?_, cde_toBytes_length e⟩
    rw [hparse, cde_toBytes_length e]
    norm_num
  · have hw' := hw
    simp only [EndOfCentralDirectoryRecord.WF, Bool.and_eq_true,
      decide_eq_true_eq] at hw'
    obtain ⟨hparse, -⟩ := @eocd_parse_serialized r.toBytes 0
      (by omega) r []
      (by simp only [Int.toNat_zero, List.drop_zero, List.append_nil])
      (by omega)
    rw [eocd_reparse_eq r hw] at hparse
    refine ⟨?_, eocd_toBytes_length r⟩
    rw [hparse, eocd_toBytes_length r]
    norm_num

/-- A well-formed concrete directory entry (with a header offset) and EOCD
record for the C3 witness. -/
def sampleCdOff : CentralDirectoryEntry :=
  { lastModified := ⟨2026, 1, 2, 3, 4, 6⟩, fileNameBytes := [97],
    headerOffset := some 0 }

/-- A concrete EOCD record for the C3 witness. -/
def sampleEocd : EndOfCentralDirectoryRecord :=
  { cdSize := some 0, cdOffset := some 0 }

/-- Witness for C3 at one concrete record of each kind. -/
theorem c3_record_roundtrips_witness :
    (LocalFileHeader.fromCursor ⟨(sampleLfh [97]).toBytes, 0⟩ =
        .ok (sampleLfh [97],
          ⟨(sampleLfh [97]).toBytes,
            ((sampleLfh [97]).toBytes.length : Int)⟩) ∧
      (sampleLfh [97]).toBytes.length =
        30 + (sampleLfh [97]).fileNameBytes.length
        + (sampleLfh [97]).extraFieldBytes.length) ∧
    (CentralDirectoryEntry.fromCursor ⟨sampleCdOff.toBytes, 0⟩ =
        .ok (sampleCdOff,
          ⟨sampleCdOff.toBytes, (sampleCdOff.toBytes.length : Int)⟩) ∧
      sampleCdOff.toBytes.length = 46 + sampleCdOff.fileNameBytes.length
        + sampleCdOff.extraFieldBytes.length
        + sampleCdOff.commentBytes.length) ∧
    (EndOfCentralDirectoryRecord.fromCursor ⟨sampleEocd.toBytes, 0⟩ =
        .ok (sampleEocd,
          ⟨sampleEocd.toBytes, (sampleEocd.toBytes.length : Int)⟩) ∧
      sampleEocd.toBytes.length = 22 + sampleEocd.commentBytes.length) :=
  ⟨c3_record_roundtrips.1 (sampleLfh [97]) (by decide),
   c3_record_roundtrips.2.1 sampleCdOff (by decide),
   c3_record_roundtrips.2.2 sampleEocd (by decide)⟩


/-! ## C5: data descriptor handling -/

set_option maxHeartbeats 1000000 in
/-- C5: during Extractor construction, an entry whose local file header has
the has-data-descriptor flag (bit 3) set gets its CRC-32, compressed size
and uncompressed size overridden with the three 32-bit words read from the
trailer following the body, skipping the optional re-asserted descriptor
signature `0x08074B50` when present; an entry without the flag keeps the
header's values unchanged. -/
theorem c5_data_descriptor (B : List Nat) (o : Int) (h : LocalFileHeader)
    (r : CentralDirectoryEntry) (body dd rest : List Nat)
    (hOff crc cs us : Nat) (withSig : Bool)
    (hwf : h.WF = true)
    (hro : r.headerOffset = some (hOff : Int))
    (hrc : r.compressedSize = some (body.length : Int))
    (hdrop : B.drop hOff = h.toBytes ++ (body ++ (dd ++ rest))) :
    (h.hasDataDescriptor = true →
      dd = (if withSig then uintBytes (some 134695760) else [])
        ++ (uintBytes (some (crc : Int)) ++ (uintBytes (some (cs : Int))
          ++ uintBytes (some (us : Int)))) →
      crc < 4294967296 → cs < 4294967296 → us < 4294967296 →
      (withSig = false → crc ≠ 134695760) →
      (parseContent ⟨B, o⟩ r).map Prod.fst =
        .ok ({ h with crc32 := some (int32OfPat crc),
                      compressedSize := some (int32OfPat cs),
                      uncompressedSize := some (int32OfPat us) }, body)) ∧
    (h.hasDataDescriptor = false →
      (parseContent ⟨B, o⟩ r).map Prod.fst = .ok (h, body)) := by
  have hlen0 : B.length - hOff = h.toBytes.length
      + (body.length + (dd.length + rest.length)) := by
    have := congrArg List.length hdrop
    simpa using this
  rw [lfh_toBytes_length] at hlen0
  have hn : h.fileNameBytes.length < 65536 := by
    have hw' := hwf
    simp only [LocalFileHeader.WF, Bool.and_eq_true, decide_eq_true_eq] at hw'
    omega
  have he : h.extraFieldBytes.length < 65536 := by
    have hw' := hwf
    simp only [LocalFileHeader.WF, Bool.and_eq_true, decide_eq_true_eq] at hw'
    omega
  have hOffle : (hOff : Int) ≤ (B.length : Int) := by omega
  have hmove : ByteArrayCursor.moveTo ⟨B, o⟩ r.headerOffset =
      .ok ⟨B, (hOff : Int)⟩ := by
    rw [hro]
    exact moveTo_some hOffle
  have hdrop' : B.drop ((hOff : Int)).toNat =
      h.toBytes ++ (body ++ (dd ++ rest)) := by
    rw [Int.toNat_natCast]
    exact hdrop
  obtain ⟨hparse, hd⟩ := lfh_parse_serialized (by omega) h hdrop' hn he
  rw [lfh_reparse_eq h hwf] at hparse
  obtain ⟨hsub, hd2⟩ := subarray_of_append (by omega) hd (by
    push_cast
    omega)
  rw [← hrc] at hsub
  constructor
  · intro hflag hdd hcrc hcs hus hnosig
    rcases withSig with _ | _
    · -- no re-asserted signature
      simp only [if_neg Bool.false_ne_true, List.nil_append] at hdd
      rw [hdd] at hd2
      obtain ⟨ri1, hd3⟩ := readInt_of_uintBytes (by positivity) hd2
      obtain ⟨ri2, hd4⟩ := readInt_of_uintBytes (by positivity) hd3
      obtain ⟨ri3, hd5⟩ := readInt_of_uintBytes (by positivity) hd4
      rw [toUint32_coe crc hcrc] at ri1
      rw [toUint32_coe cs hcs] at ri2
      rw [toUint32_coe us hus] at ri3
      have hne : crc ≠ 134695760 := hnosig rfl
      simp only [parseContent, hmove, ok_bind, hparse, hsub, hflag,
        ri1, ri2, ri3, if_true]
      rw [if_neg (by
        simp only [Option.some.injEq, int32OfPat]
        split_ifs <;> omega)]
      simp only [ok_bind, Except.map]
    · -- with the re-asserted signature
      simp only [if_pos] at hdd
      rw [hdd] at hd2
      obtain ⟨ri0, hd3⟩ := readInt_of_uintBytes (by positivity) hd2
      obtain ⟨ri1, hd4⟩ := readInt_of_uintBytes (by positivity) hd3
      obtain ⟨ri2, hd5⟩ := readInt_of_uintBytes (by positivity) hd4
      obtain ⟨ri3, hd6⟩ := readInt_of_uintBytes (by positivity) hd5
      rw [show int32OfPat (toUint32 (some (134695760 : Int)))
        = (134695760 : Int) by decide] at ri0
      rw [toUint32_coe crc hcrc] at ri1
      rw [toUint32_coe cs hcs] at ri2
      rw [toUint32_coe us hus] at ri3
      simp only [parseContent, hmove, ok_bind, hparse, hsub, hflag,
        ri0, ri1, ri2, ri3, if_true]
      simp only [Except.map]
  · intro hflag
    simp only [parseContent, hmove, ok_bind, hparse, hsub, hflag,
      Bool.false_eq_true, if_false, Except.map]


/-- A local header with the has-data-descriptor flag (bit 3) set, for the
C5 witness. -/
def c5hd : LocalFileHeader :=
  { lastModified := ⟨2026, 1, 2, 3, 4, 6⟩, fileNameBytes := [97],
    flags := some 3080 }

/-- The descriptor trailer bytes of the C5 witness (re-asserted signature,
then CRC 7, compressed size 1, uncompressed size 2). -/
def c5dd : List Nat :=
  uintBytes (some 134695760) ++ (uintBytes (some ((7 : Nat) : Int))
    ++ (uintBytes (some ((1 : Nat) : Int))
      ++ uintBytes (some ((2 : Nat) : Int))))

/-- The archive fragment of the C5 witness: local header, 1-byte body,
descriptor. -/
def c5B : List Nat := c5hd.toBytes ++ ([9] ++ (c5dd ++ []))

/-- Directory record addressing the C5 witness entry. -/
def c5r : CentralDirectoryEntry :=
  { lastModified := ⟨2026, 1, 2, 3, 4, 6⟩, headerOffset := some 0,
    compressedSize := some 1 }

/-- The archive fragment of the flag-clear half of the C5 witness. -/
def c5B2 : List Nat := (sampleLfh [97]).toBytes ++ ([8] ++ ([] ++ []))

/-- Witness for C5: with bit 3 set the parsed entry carries the descriptor's
CRC and sizes; with bit 3 clear the header is returned unchanged. -/
theorem c5_data_descriptor_witness :
    (parseContent ⟨c5B, 0⟩ c5r).map Prod.fst =
      .ok ({ c5hd with crc32 := some (int32OfPat 7),
                       compressedSize := some (int32OfPat 1),
                       uncompressedSize := some (int32OfPat 2) }, [9]) ∧
    (parseContent ⟨c5B2, 0⟩ c5r).map Prod.fst =
      .ok (sampleLfh [97], [8]) :=
  ⟨(c5_data_descriptor c5B 0 c5hd c5r [9] c5dd [] 0 7 1 2 true
      (by decide) (by decide) (by decide) (by decide)).1
      (by decide) rfl (by decide) (by decide) (by decide) (by decide),
   (c5_data_descriptor c5B2 0 (sampleLfh [97]) c5r [8] [] [] 0 0 0 0 false
      (by decide) (by decide) (by decide) (by decide)).2 (by decide)⟩


/-! ## C6: build() layout bookkeeping -/

/-- The serialized size (local header plus body) of one content entry. -/
def localSize (p : LocalFileHeader × List Nat) : Nat :=
  p.1.toBytes.length + p.2.length

/-- A directory entry with its header offset assigned. -/
def withOffset (off : Nat) (cd : CentralDirectoryEntry) :
    CentralDirectoryEntry :=
  { cd with headerOffset := some (off : Int) }

theorem assignOffsets_spec : ∀ (cs : List (LocalFileHeader × List Nat))
    (cds : List CentralDirectoryEntry) (off : Nat),
    cs.length = cds.length →
    ∃ lb : List Nat, ∃ cds' : List CentralDirectoryEntry,
      assignOffsets cs cds off = .ok (lb, cds', off + lb.length) ∧
      cds'.length = cds.length ∧
      lb.length = (cs.map localSize).sum ∧
      (∀ i : Nat, i < cds.length →
        cds'[i]? = (cds[i]?).map
          (withOffset (off + ((cs.map localSize).take i).sum))) := by
  intro cs
  induction cs with
  | nil =>
    intro cds off hlen
    cases cds with
    | nil =>
      refine ⟨[], [], ?_, rfl, rfl, ?_⟩
      · simp [assignOffsets]
      · intro i hi
        simp at hi
    | cons cd rest => simp at hlen
  | cons p rest ih =>
    intro cds off hlen
    cases cds with
    | nil => simp at hlen
    | cons cd cdrest =>
      obtain ⟨h, body⟩ := p
      obtain ⟨lbt, cds'', hrun, hlen'', hlbt, hidx⟩ :=
        ih cdrest (off + (h.toBytes.length + body.length))
          (by simpa using hlen)
      refine ⟨h.toBytes ++ body ++ lbt, withOffset off cd :: cds'',
        ?_, ?_, ?_, ?_⟩
      · simp only [assignOffsets, hrun, ok_bind, withOffset]
        have heq : off + (h.toBytes.length + body.length) + lbt.length
            = off + (h.toBytes ++ body ++ lbt).length := by
          simp
          omega
        rw [heq]
      · simpa using hlen''
      · simp only [List.map_cons, localSize, List.sum_cons,
          List.length_append]
        omega
      · intro i hi
        cases i with
        | zero =>
          simp [List.take_zero]
        | succ j =>
          have hj : j < cdrest.length := by simpa using hi
          simp only [List.getElem?_cons_succ]
          rw [hidx j hj]
          have hsum : ((((h, body) :: rest).map localSize).take (j + 1)).sum
              = (h.toBytes.length + body.length)
                + ((rest.map localSize).take j).sum := by
            simp [localSize]
          rw [hsum]
          have harith : off + (h.toBytes.length + body.length)
              + ((rest.map localSize).take j).sum
              = off + ((h.toBytes.length + body.length)
                + ((rest.map localSize).take j).sum) := by omega
          rw [← harith]

set_option maxHeartbeats 1000000 in
/-- C6: with the two parallel lists index-aligned, `build()` assigns every
directory entry a `headerOffset` equal to the summed serialized lengths
(local header + body) of all preceding entries, sets both EOCD file counts
to the entry count, sets `cdOffset` to the total byte length of the local
header+body region, and sets `cdSize` to the total byte length of the
serialized directory entries. -/
theorem c6_build_layout (b : Builder) (comment : List Nat)
    (halign : b.contents.length = b.centralDirectory.length) :
    (b.build comment).isOk = true ∧
    (∀ res : BuildResult, b.build comment = .ok res →
      res.eocd.numOfFiles = some (b.contents.length : Int) ∧
      res.eocd.totalNumOfFiles = some (b.contents.length : Int) ∧
      res.eocd.cdOffset =
        some (((b.contents.map localSize).sum : Nat) : Int) ∧
      res.eocd.cdSize = some
        (((res.centralDirectory.map (fun e => e.toBytes.length)).sum
          : Nat) : Int) ∧
      (∀ i : Nat, i < b.centralDirectory.length →
        (res.centralDirectory[i]?).map (fun e => e.headerOffset) =
          some (some ((((b.contents.map localSize).take i).sum
            : Nat) : Int)))) := by
  obtain ⟨lb, cds', hrun, hlen', hlb, hidx⟩ :=
    assignOffsets_spec b.contents b.centralDirectory 0 halign
  constructor
  · simp [Builder.build, hrun, ok_bind, Except.isOk, Except.toBool]
  · intro res hres
    simp only [Builder.build, hrun, ok_bind, Except.ok.injEq] at hres
    subst hres
    refine ⟨rfl, rfl, ?_, ?_, ?_⟩
    · simp only
      rw [hlb]
      norm_num
    · simp only [Nat.cast_list_sum, List.map_map]
      rfl
    · intro i hi
      rw [hidx i hi, List.getElem?_eq_getElem (by omega)]
      simp [withOffset]


/-- Witness for C6 on the three-entry Builder. -/
theorem c6_build_layout_witness :
    (builder3.build []).isOk = true ∧
    (∀ res : BuildResult, builder3.build [] = .ok res →
      res.eocd.numOfFiles = some (builder3.contents.length : Int) ∧
      res.eocd.totalNumOfFiles = some (builder3.contents.length : Int) ∧
      res.eocd.cdOffset =
        some (((builder3.contents.map localSize).sum : Nat) : Int) ∧
      res.eocd.cdSize = some
        (((res.centralDirectory.map (fun e => e.toBytes.length)).sum
          : Nat) : Int) ∧
      (∀ i : Nat, i < builder3.centralDirectory.length →
        (res.centralDirectory[i]?).map (fun e => e.headerOffset) =
          some (some ((((builder3.contents.map localSize).take i).sum
            : Nat) : Int)))) :=
  c6_build_layout builder3 [] (by decide)


/-! ## C1: build-then-extract round trip

Stage 1: characterizing the Builder state after a sequence of `append`
calls, and the byte layout `build()` emits. -/

/-- The body stored for an appended entry: the input unchanged for method 0
(store), the external compressor's output for method 8 (deflate). -/
def entryBody (compress : List Nat → List Nat) (m : Int)
    (content : List Nat) : List Nat :=
  if m = 0 then content else compress content

/-- The local file header `append` records for an entry. -/
def entryHeader (now : ZipDateTime) (compress : List Nat → List Nat)
    (path : List Nat) (m : Int) (content : List Nat) : LocalFileHeader where
  versionNeeded := some (if m = 8 then 20 else 10)
  flags := setFlag (some 1024) 11 true
  method := some m
  lastModified := now
  crc32 := some (calcCrc32 content)
  compressedSize := some ((entryBody compress m content).length : Int)
  uncompressedSize := some (content.length : Int)
  fileNameBytes := path
  extraFieldBytes := []

/-- The central directory entry `append` records for an entry. -/
def entryCd (now : ZipDateTime) (compress : List Nat → List Nat)
    (path : List Nat) (m : Int) (content : List Nat) :
    CentralDirectoryEntry where
  versionMadeBy := some 20
  versionNeeded := some (if m = 8 then 20 else 10)
  flags := setFlag (some 1024) 11 true
  method := some m
  lastModified := now
  crc32 := some (calcCrc32 content)
  compressedSize := some ((entryBody compress m content).length : Int)
  uncompressedSize := some (content.length : Int)
  fileNameBytes := path
  extraFieldBytes := []
  commentBytes := []

/-- The content pair `append` pushes for one `(path, method, content)`
entry. -/
def builtPair (now : ZipDateTime) (compress : List Nat → List Nat)
    (e : List Nat × Int × List Nat) : LocalFileHeader × List Nat :=
  (entryHeader now compress e.1 e.2.1 e.2.2, entryBody compress e.2.1 e.2.2)

/-- The directory entry `append` pushes for one entry. -/
def builtCd (now : ZipDateTime) (compress : List Nat → List Nat)
    (e : List Nat × Int × List Nat) : CentralDirectoryEntry :=
  entryCd now compress e.1 e.2.1 e.2.2

theorem append_ok (now : ZipDateTime) (compress : List Nat → List Nat)
    (b : Builder) (path : List Nat) (m : Int) (content : List Nat)
    (hm : m = 0 ∨ m = 8) :
    b.append now compress content { filepath := path, method := some m } =
      .ok (b.contents.length + 1,
        { centralDirectory := b.centralDirectory
            ++ [entryCd now compress path m content],
          contents := b.contents
            ++ [(entryHeader now compress path m content,
                 entryBody compress m content)] }) := by
  rcases hm with hm | hm <;> subst hm
  · simp [Builder.append, entryCd, entryHeader, entryBody]
  · simp [Builder.append, entryCd, entryHeader, entryBody]

theorem appendAll_spec (now : ZipDateTime)
    (compress : List Nat → List Nat) :
    ∀ (entries : List (List Nat × Int × List Nat)) (b : Builder),
    (∀ e ∈ entries, e.2.1 = 0 ∨ e.2.1 = 8) →
    Builder.appendAll now compress b entries =
      .ok { centralDirectory := b.centralDirectory
              ++ entries.map (builtCd now compress),
            contents := b.contents
              ++ entries.map (builtPair now compress) } := by
  intro entries
  induction entries with
  | nil =>
    intro b hm
    simp [Builder.appendAll]
  | cons e rest ih =>
    intro b hm
    obtain ⟨path, m, content⟩ := e
    have hmem : m = 0 ∨ m = 8 := hm _ (List.mem_cons_self _ _)
    have hrest := ih
      ⟨b.centralDirectory ++ [entryCd now compress path m content],
       b.contents ++ [(entryHeader now compress path m content,
         entryBody compress m content)]⟩
      (fun x hx => hm x (List.mem_cons_of_mem _ hx))
    simp only [Builder.appendAll,
      append_ok now compress b path m content hmem, ok_bind, hrest]
    simp [builtCd, builtPair, List.append_assoc]

/-- The concatenation of serialized local headers and bodies as emitted by
the offset-assigning loop of `build()`. -/
def localConcat : List (LocalFileHeader × List Nat) → List Nat
  | [] => []
  | (h, body) :: rest => h.toBytes ++ (body ++ localConcat rest)

theorem localConcat_length (cs : List (LocalFileHeader × List Nat)) :
    (localConcat cs).length = (cs.map localSize).sum := by
  induction cs with
  | nil => rfl
  | cons p rest ih =>
    obtain ⟨h, body⟩ := p
    simp [localConcat, localSize, ih]
    omega

/-- The directory entries of the entry list with their header offsets as
assigned by the `build()` loop starting from `base`. -/
def offsetsCds (now : ZipDateTime) (compress : List Nat → List Nat) :
    List (List Nat × Int × List Nat) → Nat → List CentralDirectoryEntry
  | [], _ => []
  | e :: rest, base =>
    withOffset base (builtCd now compress e)
      :: offsetsCds now compress rest
          (base + localSize (builtPair now compress e))

theorem assignOffsets_entries (now : ZipDateTime)
    (compress : List Nat → List Nat) :
    ∀ (entries : List (List Nat × Int × List Nat)) (base : Nat),
    assignOffsets (entries.map (builtPair now compress))
        (entries.map (builtCd now compress)) base =
      .ok (localConcat (entries.map (builtPair now compress)),
        offsetsCds now compress entries base,
        base + (localConcat (entries.map (builtPair now compress))).length) := by
  intro entries
  induction entries with
  | nil =>
    intro base
    simp [assignOffsets, localConcat, offsetsCds]
  | cons e rest ih =>
    intro base
    obtain ⟨path, m, content⟩ := e
    simp only [List.map_cons, localConcat, offsetsCds, builtPair,
      assignOffsets, ih, ok_bind, Except.ok.injEq, Prod.mk.injEq]
    refine ⟨?_, ?_, ?_⟩
    · simp [List.append_assoc]
    · simp [withOffset, builtCd, builtPair, localSize]
    · simp [List.length_append, localConcat]
      omega


/-! Stage 2: extractor-side parsing of the built byte layout. -/

set_option maxHeartbeats 2000000 in
theorem parseCD_spec (B : List Nat) :
    ∀ (cds : List CentralDirectoryEntry) (o : Int) (rest : List Nat),
    0 ≤ o →
    B.drop o.toNat = (cds.map (fun e => e.toBytes)).flatten ++ rest →
    (∀ e ∈ cds, e.fileNameBytes.length < 65536 ∧
      e.extraFieldBytes.length < 65536 ∧ e.commentBytes.length < 65536) →
    parseCD cds.length ⟨B, o⟩ =
      .ok (cds.map CentralDirectoryEntry.reparse,
        ⟨B, o + (((cds.map (fun e => e.toBytes)).flatten.length : Nat)
          : Int)⟩) ∧
    B.drop (o + (((cds.map (fun e => e.toBytes)).flatten.length : Nat)
      : Int)).toNat = rest := by
  intro cds
  induction cds with
  | nil =>
    intro o rest ho hdrop hwf
    constructor
    · simp only [List.length_nil, parseCD, List.map_nil]
      norm_num
    · simpa using hdrop
  | cons e0 rest0 ih =>
    intro o rest ho hdrop hwf
    obtain ⟨hn, he, hc⟩ := hwf e0 (List.mem_cons_self _ _)
    rw [List.map_cons, List.flatten_cons, List.append_assoc] at hdrop
    obtain ⟨hparse, hd⟩ := cde_parse_serialized ho e0 hdrop hn he hc
    rw [← cde_toBytes_length e0] at hparse hd
    obtain ⟨hrest, hd2⟩ := ih (o + (e0.toBytes.length : Int)) rest
      (by omega) hd (fun x hx => hwf x (List.mem_cons_of_mem _ hx))
    have heq : o + (e0.toBytes.length : Int)
        + (((rest0.map (fun e => e.toBytes)).flatten.length : Nat) : Int)
        = o + ((((e0 :: rest0).map (fun e => e.toBytes)).flatten.length
          : Nat) : Int) := by
      rw [List.map_cons, List.flatten_cons, List.length_append]
      push_cast
      ring
    constructor
    · simp only [List.length_cons, parseCD, hparse, ok_bind, hrest,
        List.map_cons]
      rw [heq, List.map_cons]
    · rw [heq] at hd2
      exact hd2


set_option maxHeartbeats 2000000 in
/-- Parsing one content entry whose local header has the data-descriptor
flag clear: the parsed header and the body view, with the cursor left right
after the body. -/
theorem parseContent_plain (B : List Nat) (o : Int) (h : LocalFileHeader)
    (r : CentralDirectoryEntry) (body rest : List Nat) (hOff : Nat)
    (hro : r.headerOffset = some (hOff : Int))
    (hrc : r.compressedSize = some (body.length : Int))
    (hdrop : B.drop hOff = h.toBytes ++ (body ++ rest))
    (hn : h.fileNameBytes.length < 65536)
    (he : h.extraFieldBytes.length < 65536)
    (hflag : h.reparse.hasDataDescriptor = false) :
    parseContent ⟨B, o⟩ r =
      .ok ((h.reparse, body),
        ⟨B, (hOff : Int) + ((30 + h.fileNameBytes.length
          + h.extraFieldBytes.length : Nat) : Int) + (body.length : Int)⟩) := by
  have hlen0 : B.length - hOff = h.toBytes.length
      + (body.length + rest.length) := by
    have := congrArg List.length hdrop
    simpa using this
  rw [lfh_toBytes_length] at hlen0
  have hOffle : (hOff : Int) ≤ (B.length : Int) := by omega
  have hmove : ByteArrayCursor.moveTo ⟨B, o⟩ r.headerOffset =
      .ok ⟨B, (hOff : Int)⟩ := by
    rw [hro]
    exact moveTo_some hOffle
  have hdrop' : B.drop ((hOff : Int)).toNat =
      h.toBytes ++ (body ++ rest) := by
    rw [Int.toNat_natCast]
    exact hdrop
  obtain ⟨hparse, hd⟩ := lfh_parse_serialized (by omega) h hdrop' hn he
  obtain ⟨hsub, hd2⟩ := subarray_of_append (by positivity) hd (by
    push_cast
    omega)
  rw [← hrc] at hsub
  simp only [parseContent, hmove, ok_bind, hparse, hsub, hflag,
    Bool.false_eq_true, if_false]

/-! Stage 3 helpers: reparse of in-range values, `Array.from` length, list
indexing through `at`. -/

theorem reparseU32_coe (n : Nat) (h : n < 4294967296) :
    reparseU32 (some (n : Int)) = some (n : Int) := by
  simp only [reparseU32, toUint32_coe n h]

theorem reparseU16_coe (n : Nat) (h : n < 65536) :
    reparseU16 (some (n : Int)) = some (n : Int) := by
  simp only [reparseU16, toUint32_coe n (by omega), Nat.mod_eq_of_lt h]

theorem jsToLength_coe (n : Nat) (h : n ≤ 9007199254740991) :
    jsToLength (some (n : Int)) = n := by
  simp only [jsToLength, Int.toNat_natCast]
  omega

theorem jsAt_natCast {α : Type} (l : List α) (i : Nat) :
    jsAt l (i : Int) = l[i]? := by
  simp [jsAt]

/-- The header `append` records never requests a data descriptor: flag
bit 3 stays clear through serialization and re-parsing. -/
theorem entryHeader_no_descriptor (now : ZipDateTime)
    (compress : List Nat → List Nat) (path : List Nat) (m : Int)
    (content : List Nat) :
    (entryHeader now compress path m content).reparse.hasDataDescriptor
      = false := by
  simp only [LocalFileHeader.hasDataDescriptor, LocalFileHeader.reparse,
    entryHeader]
  decide

theorem offsetsCds_length (now : ZipDateTime)
    (compress : List Nat → List Nat) :
    ∀ (entries : List (List Nat × Int × List Nat)) (base : Nat),
    (offsetsCds now compress entries base).length = entries.length := by
  intro entries
  induction entries with
  | nil => intro base; rfl
  | cons e rest ih =>
    intro base
    simp [offsetsCds, ih]

theorem offsetsCds_wf (now : ZipDateTime)
    (compress : List Nat → List Nat) :
    ∀ (entries : List (List Nat × Int × List Nat)) (base : Nat),
    (∀ e ∈ entries, e.1.length < 65536) →
    ∀ cd ∈ offsetsCds now compress entries base,
      cd.fileNameBytes.length < 65536 ∧ cd.extraFieldBytes.length < 65536 ∧
      cd.commentBytes.length < 65536 := by
  intro entries
  induction entries with
  | nil =>
    intro base hp cd hcd
    simp [offsetsCds] at hcd
  | cons e rest ih =>
    intro base hp cd hcd
    rw [offsetsCds, List.mem_cons] at hcd
    rcases hcd with hcd | hcd
    · subst hcd
      refine ⟨?_, ?_, ?_⟩ <;>
        simp [withOffset, builtCd, entryCd, hp e (List.mem_cons_self _ _)]
    · exact ih _ (fun x hx => hp x (List.mem_cons_of_mem _ hx)) cd hcd

theorem offsetsCds_fileNames (now : ZipDateTime)
    (compress : List Nat → List Nat) :
    ∀ (entries : List (List Nat × Int × List Nat)) (base : Nat),
    (offsetsCds now compress entries base).map
        (fun c => c.reparse.fileNameBytes)
      = entries.map (fun e => e.1) := by
  intro entries
  induction entries with
  | nil => intro base; rfl
  | cons e rest ih =>
    intro base
    simp only [offsetsCds, List.map_cons, ih, List.cons.injEq]
    refine ⟨?_, trivial⟩
    simp [CentralDirectoryEntry.reparse, withOffset, builtCd, entryCd]

theorem offsetsCds_sizes (now : ZipDateTime)
    (compress : List Nat → List Nat) :
    ∀ (entries : List (List Nat × Int × List Nat)) (base : Nat),
    (∀ e ∈ entries, e.2.2.length < 4294967296) →
    (offsetsCds now compress entries base).map
        (fun c => c.reparse.uncompressedSize)
      = entries.map (fun e => some ((e.2.2.length : Nat) : Int)) := by
  intro entries
  induction entries with
  | nil => intro base hwf; rfl
  | cons e rest ih =>
    intro base hwf
    simp only [offsetsCds, List.map_cons,
      ih _ (fun x hx => hwf x (List.mem_cons_of_mem _ hx)),
      List.cons.injEq]
    refine ⟨?_, trivial⟩
    show (withOffset base (builtCd now compress e)).reparse.uncompressedSize
      = some ((e.2.2.length : Nat) : Int)
    simp only [CentralDirectoryEntry.reparse, withOffset, builtCd, entryCd]
    exact reparseU32_coe _ (hwf e (List.mem_cons_self _ _))


set_option maxHeartbeats 2000000 in
/-- Parsing the whole `contents` map over the reparsed directory of a built
archive: every entry yields its appended header (reparsed) and stored
body. -/
theorem parseContents_built (now : ZipDateTime)
    (compress : List Nat → List Nat) (B : List Nat) :
    ∀ (entries : List (List Nat × Int × List Nat)) (base : Nat) (o : Int)
      (rest : List Nat),
    B.drop base = localConcat (entries.map (builtPair now compress)) ++ rest →
    base + (localConcat (entries.map (builtPair now compress))).length
      < 4294967296 →
    (∀ e ∈ entries, e.1.length < 65536 ∧
      (entryBody compress e.2.1 e.2.2).length < 4294967296) →
    ∃ c, parseContents ⟨B, o⟩
        ((offsetsCds now compress entries base).map
          CentralDirectoryEntry.reparse) =
      .ok ((entries.map (builtPair now compress)).map
        (fun p => (p.1.reparse, p.2)), c) := by
  intro entries
  induction entries with
  | nil =>
    intro base o rest hdrop hb32 hwf
    exact ⟨⟨B, o⟩, rfl⟩
  | cons e rest0 ih =>
    obtain ⟨path, m, content⟩ := e
    intro base o rest hdrop hb32 hwf
    obtain ⟨hp, hbody⟩ := hwf _ (List.mem_cons_self _ _)
    simp only [List.map_cons, localConcat, builtPair] at hdrop hb32
    have hdrop2 : B.drop base
        = (entryHeader now compress path m content).toBytes
          ++ (entryBody compress m content
            ++ (localConcat (rest0.map (builtPair now compress)) ++ rest)) := by
      rw [hdrop]
      simp [List.append_assoc]
    have hro : ((withOffset base (builtCd now compress
        (path, m, content))).reparse).headerOffset = some ((base : Nat) : Int) := by
      simp only [CentralDirectoryEntry.reparse, withOffset]
      exact reparseU32_coe base (by omega)
    have hrc : ((withOffset base (builtCd now compress
        (path, m, content))).reparse).compressedSize
        = some (((entryBody compress m content).length : Nat) : Int) := by
      simp only [CentralDirectoryEntry.reparse, withOffset, builtCd, entryCd]
      exact reparseU32_coe _ hbody
    have hpc := parseContent_plain B o
      (entryHeader now compress path m content)
      ((withOffset base (builtCd now compress (path, m, content))).reparse)
      (entryBody compress m content)
      (localConcat (rest0.map (builtPair now compress)) ++ rest)
      base hro hrc hdrop2 hp (by simp [entryHeader])
      (entryHeader_no_descriptor now compress path m content)
    have hdrop3 : B.drop (base + ((entryHeader now compress path m
        content).toBytes.length + (entryBody compress m content).length))
        = localConcat (rest0.map (builtPair now compress)) ++ rest := by
      have h1 : B.drop base
          = ((entryHeader now compress path m content).toBytes
            ++ entryBody compress m content)
            ++ (localConcat (rest0.map (builtPair now compress)) ++ rest) := by
        rw [hdrop2, List.append_assoc]
      have h2 : (B.drop base).drop
          ((entryHeader now compress path m content).toBytes.length
            + (entryBody compress m content).length)
          = localConcat (rest0.map (builtPair now compress)) ++ rest := by
        rw [h1, ← List.length_append, List.drop_left]
      rw [List.drop_drop] at h2
      exact h2
    obtain ⟨c, hrest⟩ := ih
      (base + ((entryHeader now compress path m content).toBytes.length
        + (entryBody compress m content).length))
      ((base : Int) + ((30 + (entryHeader now compress path m
        content).fileNameBytes.length + (entryHeader now compress path m
        content).extraFieldBytes.length : Nat) : Int)
        + ((entryBody compress m content).length : Int))
      rest hdrop3
      (by
        simp only [List.length_append] at hb32
        omega)
      (fun x hx => hwf x (List.mem_cons_of_mem _ hx))
    refine ⟨c, ?_⟩
    have hsize : localSize (entryHeader now compress path m content,
          entryBody compress m content)
        = (entryHeader now compress path m content).toBytes.length
          + (entryBody compress m content).length := rfl
    simp only [offsetsCds, List.map_cons, parseContents, hpc, ok_bind,
      hsize, hrest, ok_bind, builtPair]


/-! Stage 4: locating the EOCD signature in a built archive. -/

/-- The 22 bytes a built archive ends with, in terms of the entry count,
directory size and directory offset. -/
theorem eocd_bytes_explicit (n S L : Nat) (hn : n < 65536)
    (hS : S < 4294967296) (hL : L < 4294967296) :
    (EndOfCentralDirectoryRecord.toBytes
      { numOfFiles := some (n : Int), totalNumOfFiles := some (n : Int),
        cdSize := some (S : Int), cdOffset := some (L : Int),
        commentBytes := [] })
    = [80, 75, 5, 6, 0, 0, 0, 0, n % 256, n / 256 % 256, n % 256,
       n / 256 % 256, S % 256, S / 256 % 256, S / 65536 % 256,
       S / 16777216 % 256, L % 256, L / 256 % 256, L / 65536 % 256,
       L / 16777216 % 256, 0, 0] := by
  simp only [EndOfCentralDirectoryRecord.toBytes, uintBytes, ushortBytes,
    toUint32_coe n (by omega), toUint32_coe S hS, toUint32_coe L hL]
  norm_num [toUint32]
  decide

theorem sigAt_lt_length {A : List Nat} {k : Nat} (h : sigAt A k = true) :
    k < A.length := by
  by_contra hk
  have hnone : A[k]? = none := List.getElem?_eq_none (by omega)
  simp [sigAt, hnone] at h

/-- A signature test at or after a suffix is the test inside the suffix. -/
theorem sigAt_of_drop {A tail : List Nat} {k : Nat}
    (hdrop : A.drop k = tail) (r : Nat) :
    sigAt A (k + r) = sigAt tail r := by
  have hidx : ∀ m, A[k + m]? = tail[m]? := fun m => by
    rw [← hdrop, List.getElem?_drop]
  simp only [sigAt]
  rw [show k + r + 1 = k + (r + 1) by omega,
    show k + r + 2 = k + (r + 2) by omega,
    show k + r + 3 = k + (r + 3) by omega,
    hidx r, hidx (r + 1), hidx (r + 2), hidx (r + 3)]

/-- `findLastIndex` through the model: a match at `k` and no match after it
pin the result. -/
theorem findLastSigIdx_eq {A : List Nat} {k : Nat}
    (hk : sigAt A k = true)
    (hafter : ∀ j, k < j → sigAt A j = false) :
    findLastSigIdx A = (k : Int) := by
  have hklen : k < A.length := sigAt_lt_length hk
  have hsplit : List.range A.length
      = List.range (k + 1)
        ++ (List.range (A.length - (k + 1))).map (fun j => k + 1 + j) := by
    have h1 : A.length = (k + 1) + (A.length - (k + 1)) := by omega
    rw [h1, List.range_add]
    simp
  have h2 : ((List.range (A.length - (k + 1))).map
      (fun j => k + 1 + j)).filter (sigAt A) = [] := by
    rw [List.filter_eq_nil_iff]
    intro a ha
    obtain ⟨j, hj, rfl⟩ := List.mem_map.mp ha
    simp [hafter (k + 1 + j) (by omega)]
  have h3 : (List.range (k + 1)).filter (sigAt A)
      = ((List.range k).filter (sigAt A)) ++ [k] := by
    rw [List.range_succ, List.filter_append]
    simp [hk]
  simp only [findLastSigIdx, hsplit, List.filter_append, h2, h3,
    List.append_nil]
  rw [List.getLast?_concat]

/-- No byte position strictly after the EOCD signature of a built archive
matches the signature, given the count and size bounds under which the
backward scan cannot be fooled. -/
theorem built_no_sig_after {A : List Nat} {k n S L : Nat}
    (hlen : A.length = k + 22)
    (hdrop : A.drop k = [80, 75, 5, 6, 0, 0, 0, 0, n % 256, n / 256 % 256,
      n % 256, n / 256 % 256, S % 256, S / 256 % 256, S / 65536 % 256,
      S / 16777216 % 256, L % 256, L / 256 % 256, L / 65536 % 256,
      L / 16777216 % 256, 0, 0])
    (hn : n < 19280) (hS : S < 88821760) (hL : L ≠ 101010256)
    (hL32 : L < 4294967296) :
    ∀ j, k < j → sigAt A j = false := by
  intro j hj
  obtain ⟨r, rfl⟩ : ∃ r, j = k + r := ⟨j - k, by omega⟩
  have hr1 : 1 ≤ r := by omega
  rcases Nat.lt_or_ge r 19 with h19 | h19
  · rw [sigAt_of_drop hdrop]
    interval_cases r <;>
      (rw [Bool.eq_false_iff]
       intro hcontra
       simp only [sigAt, List.getElem?_cons_zero, List.getElem?_cons_succ,
         Bool.and_eq_true, beq_iff_eq, Option.some.injEq] at hcontra
       omega)
  · have h4 : A[k + r + 3]? = none := List.getElem?_eq_none (by omega)
    simp [sigAt, h4]


/-! Stage 5: the full layout `build()` emits for an appended entry list. -/

/-- The local-section bytes of a built archive. -/
def builtLocal (now : ZipDateTime) (compress : List Nat → List Nat)
    (entries : List (List Nat × Int × List Nat)) : List Nat :=
  localConcat (entries.map (builtPair now compress))

/-- The serialized central directory of a built archive. -/
def builtCdBytes (now : ZipDateTime) (compress : List Nat → List Nat)
    (entries : List (List Nat × Int × List Nat)) : List Nat :=
  ((offsetsCds now compress entries 0).map (fun c => c.toBytes)).flatten

/-- The EOCD record `build()` constructs for an appended entry list. -/
def builtEocd (now : ZipDateTime) (compress : List Nat → List Nat)
    (entries : List (List Nat × Int × List Nat)) :
    EndOfCentralDirectoryRecord :=
  { numOfFiles := some ((entries.length : Nat) : Int),
    totalNumOfFiles := some ((entries.length : Nat) : Int),
    cdSize := some (((builtCdBytes now compress entries).length : Nat) : Int),
    cdOffset := some (((builtLocal now compress entries).length : Nat) : Int),
    commentBytes := [] }

/-- The whole byte output of `build()`. -/
def builtBytes (now : ZipDateTime) (compress : List Nat → List Nat)
    (entries : List (List Nat × Int × List Nat)) : List Nat :=
  builtLocal now compress entries ++ builtCdBytes now compress entries
    ++ (builtEocd now compress entries).toBytes

set_option maxHeartbeats 1000000 in
/-- `build()` on the Builder state reached by appending `entries` emits the
layout above. -/
theorem build_entries (now : ZipDateTime) (compress : List Nat → List Nat)
    (entries : List (List Nat × Int × List Nat)) (b : Builder)
    (hm : ∀ e ∈ entries, e.2.1 = 0 ∨ e.2.1 = 8)
    (hb : Builder.appendAll now compress ⟨[], []⟩ entries = .ok b) :
    b.build = .ok ⟨builtBytes now compress entries,
      offsetsCds now compress entries 0, builtEocd now compress entries⟩ := by
  rw [appendAll_spec now compress entries ⟨[], []⟩ hm] at hb
  have hb2 : ({
      centralDirectory := [] ++ entries.map (builtCd now compress),
      contents := [] ++ entries.map (builtPair now compress) } : Builder)
      = b := by
    injection hb
  subst hb2
  simp only [Builder.build, List.nil_append, assignOffsets_entries, ok_bind,
    Nat.zero_add]
  simp only [builtBytes, builtLocal, builtCdBytes, builtEocd,
    List.length_map, List.length_flatten, List.map_map, List.append_assoc,
    Nat.cast_list_sum, Function.comp_def]


set_option maxHeartbeats 4000000 in
/-- Constructing an `Extractor` from a built archive: the scan finds the
EOCD written by `build()`, and the directory and all contents parse back
(reparsed) exactly as appended. -/
theorem construct_built (now : ZipDateTime)
    (compress : List Nat → List Nat)
    (entries : List (List Nat × Int × List Nat))
    (hwfe : ∀ e ∈ entries, e.1.length < 65536 ∧
      (entryBody compress e.2.1 e.2.2).length < 4294967296)
    (hn : entries.length < 65536)
    (hscan : ∀ j, (builtLocal now compress entries).length
      + (builtCdBytes now compress entries).length < j →
      sigAt (builtBytes now compress entries) j = false)
    (hA32 : (builtLocal now compress entries).length
      + (builtCdBytes now compress entries).length < 4294967296) :
    Extractor.construct (builtBytes now compress entries) =
      .ok ⟨(builtEocd now compress entries).reparse,
        (offsetsCds now compress entries 0).map
          CentralDirectoryEntry.reparse,
        (entries.map (builtPair now compress)).map
          (fun p => (p.1.reparse, p.2))⟩ := by
  have hAlen : (builtBytes now compress entries).length
      = (builtLocal now compress entries).length
        + (builtCdBytes now compress entries).length + 22 := by
    simp [builtBytes, eocd_toBytes_length, builtEocd]
    omega
  have hdropE : (builtBytes now compress entries).drop
      ((builtLocal now compress entries).length
        + (builtCdBytes now compress entries).length)
      = (builtEocd now compress entries).toBytes := by
    rw [builtBytes, ← List.length_append]
    exact List.drop_left _ _
  have hexp : (builtEocd now compress entries).toBytes
      = [80, 75, 5, 6, 0, 0, 0, 0, entries.length % 256,
         entries.length / 256 % 256, entries.length % 256,
         entries.length / 256 % 256,
         (builtCdBytes now compress entries).length % 256,
         (builtCdBytes now compress entries).length / 256 % 256,
         (builtCdBytes now compress entries).length / 65536 % 256,
         (builtCdBytes now compress entries).length / 16777216 % 256,
         (builtLocal now compress entries).length % 256,
         (builtLocal now compress entries).length / 256 % 256,
         (builtLocal now compress entries).length / 65536 % 256,
         (builtLocal now compress entries).length / 16777216 % 256, 0, 0] :=
    eocd_bytes_explicit entries.length
      (builtCdBytes now compress entries).length
      (builtLocal now compress entries).length
      (by omega) (by omega) (by omega)
  have hk : sigAt (builtBytes now compress entries)
      ((builtLocal now compress entries).length
        + (builtCdBytes now compress entries).length) = true := by
    have h0 := sigAt_of_drop (hdropE.trans hexp) 0
    rw [Nat.add_zero] at h0
    rw [h0]
    simp [sigAt]
  have hafter := hscan
  have hfind : findLastSigIdx (builtBytes now compress entries)
      = (((builtLocal now compress entries).length
        + (builtCdBytes now compress entries).length : Nat) : Int) :=
    findLastSigIdx_eq hk hafter
  have hdropE' : (builtBytes now compress entries).drop
      ((((builtLocal now compress entries).length
        + (builtCdBytes now compress entries).length : Nat) : Int)).toNat
      = (builtEocd now compress entries).toBytes ++ [] := by
    rw [Int.toNat_natCast, List.append_nil]
    exact hdropE
  obtain ⟨hparseE, -⟩ := eocd_parse_serialized (Int.natCast_nonneg _)
    (builtEocd now compress entries) hdropE' (by simp [builtEocd])
  have hnum : (builtEocd now compress entries).reparse.numOfFiles
      = some ((entries.length : Nat) : Int) := by
    simp only [EndOfCentralDirectoryRecord.reparse, builtEocd]
    exact reparseU16_coe _ (by omega)
  have hcdo : (builtEocd now compress entries).reparse.cdOffset
      = some (((builtLocal now compress entries).length : Nat) : Int) := by
    simp only [EndOfCentralDirectoryRecord.reparse, builtEocd]
    exact reparseU32_coe _ (by omega)
  have hdropCd : (builtBytes now compress entries).drop
      ((((builtLocal now compress entries).length : Nat) : Int)).toNat
      = ((offsetsCds now compress entries 0).map
          (fun e => e.toBytes)).flatten
        ++ (builtEocd now compress entries).toBytes := by
    rw [Int.toNat_natCast, builtBytes, List.append_assoc]
    exact List.drop_left _ _
  obtain ⟨hpcd, -⟩ := parseCD_spec (builtBytes now compress entries)
    (offsetsCds now compress entries 0)
    (((builtLocal now compress entries).length : Nat) : Int)
    ((builtEocd now compress entries).toBytes)
    (Int.natCast_nonneg _) hdropCd
    (offsetsCds_wf now compress entries 0 (fun e he => (hwfe e he).1))
  rw [offsetsCds_length] at hpcd
  obtain ⟨c, hpc⟩ := parseContents_built now compress
    (builtBytes now compress entries) entries 0
    ((((builtLocal now compress entries).length : Nat) : Int)
      + ((((offsetsCds now compress entries 0).map
        (fun e => e.toBytes)).flatten.length : Nat) : Int))
    (builtCdBytes now compress entries
      ++ (builtEocd now compress entries).toBytes)
    (by simp only [List.drop_zero, builtBytes, builtLocal,
      List.append_assoc])
    (by
      simp only [builtLocal] at hA32
      omega)
    hwfe
  have hmv1 : ∀ o : Int, ByteArrayCursor.moveTo
      ⟨builtBytes now compress entries, o⟩
      (some (((builtLocal now compress entries).length
        + (builtCdBytes now compress entries).length : Nat) : Int))
      = .ok ⟨builtBytes now compress entries,
        (((builtLocal now compress entries).length
          + (builtCdBytes now compress entries).length : Nat) : Int)⟩ :=
    fun o => moveTo_some (by rw [hAlen]; omega)
  have hmv2 : ∀ o : Int, ByteArrayCursor.moveTo
      ⟨builtBytes now compress entries, o⟩
      (some (((builtLocal now compress entries).length : Nat) : Int))
      = .ok ⟨builtBytes now compress entries,
        (((builtLocal now compress entries).length : Nat) : Int)⟩ :=
    fun o => moveTo_some (by rw [hAlen]; omega)
  simp only [Extractor.construct, hfind, hmv1, ok_bind, hparseE, hcdo,
    hmv2, hnum, jsToLength_coe entries.length (by omega), hpcd, hpc]


set_option maxHeartbeats 2000000 in
/-- C1 (amended): for every list of appended entries (path bytes shorter
than 2^16, method 0 or 8, arbitrary contents) whose built archive stays
inside the 16/32-bit wire widths and whose trailing EOCD bytes contain no
second occurrence of the signature after the real one (the exact condition
under which the backward `findLastIndex` scan finds the EOCD `build()`
wrote — see the counterexample for a valid entry list violating it), and
with decompression inverting the compressor, constructing an Extractor from
the bytes `Builder.build()` produces exposes the same number of entries, in
the same order, with path bytes equal to the appended paths, uncompressed
sizes equal to the input lengths, and `pick` returning the original input
bytes. -/
theorem c1_build_extract_roundtrip (now : ZipDateTime)
    (compress decompress : List Nat → List Nat)
    (hinv : ∀ x, decompress (compress x) = x)
    (entries : List (List Nat × Int × List Nat)) (b : Builder)
    (res : BuildResult)
    (hm : ∀ e ∈ entries, e.2.1 = 0 ∨ e.2.1 = 8)
    (hwfe : ∀ e ∈ entries, e.1.length < 65536 ∧
      (entryBody compress e.2.1 e.2.2).length < 4294967296 ∧
      e.2.2.length < 4294967296)
    (hn : entries.length < 65536)
    (hscan : ∀ j, (builtLocal now compress entries).length
      + (builtCdBytes now compress entries).length < j →
      sigAt (builtBytes now compress entries) j = false)
    (hA32 : (builtLocal now compress entries).length
      + (builtCdBytes now compress entries).length < 4294967296)
    (hb : Builder.appendAll now compress ⟨[], []⟩ entries = .ok b)
    (hres : b.build = .ok res) :
    (Extractor.construct res.bytes).isOk = true ∧
    ∀ ex, Extractor.construct res.bytes = .ok ex →
      ex.contents.length = entries.length ∧
      ex.centralDirectory.map (fun c => c.fileNameBytes)
        = entries.map (fun e => e.1) ∧
      ex.centralDirectory.map (fun c => c.uncompressedSize)
        = entries.map (fun e => some ((e.2.2.length : Nat) : Int)) ∧
      ∀ (i : Nat) (hi : i < entries.length),
        Extractor.pick decompress ex (i : Int) = .ok entries[i].2.2 := by
  rw [build_entries now compress entries b hm hb] at hres
  have hres2 : ({
      bytes := builtBytes now compress entries,
      centralDirectory := offsetsCds now compress entries 0,
      eocd := builtEocd now compress entries } : BuildResult) = res := by
    injection hres
  subst hres2
  have hcons := construct_built now compress entries
    (fun e he => ⟨(hwfe e he).1, (hwfe e he).2.1⟩) hn hscan hA32
  constructor
  · show (Extractor.construct (builtBytes now compress entries)).isOk = true
    rw [hcons]
    rfl
  intro ex hex
  rw [show (({
      bytes := builtBytes now compress entries,
      centralDirectory := offsetsCds now compress entries 0,
      eocd := builtEocd now compress entries } : BuildResult)).bytes
    = builtBytes now compress entries from rfl, hcons] at hex
  have hex2 : ({
      eocd := (builtEocd now compress entries).reparse,
      centralDirectory := (offsetsCds now compress entries 0).map
        CentralDirectoryEntry.reparse,
      contents := (entries.map (builtPair now compress)).map
        (fun p => (p.1.reparse, p.2)) } : Extractor) = ex := by
    injection hex
  subst hex2
  refine ⟨?_, ?_, ?_, ?_⟩
  · simp
  · show ((offsetsCds now compress entries 0).map
        CentralDirectoryEntry.reparse).map (fun c => c.fileNameBytes)
      = entries.map (fun e => e.1)
    rw [List.map_map]
    exact offsetsCds_fileNames now compress entries 0
  · show ((offsetsCds now compress entries 0).map
        CentralDirectoryEntry.reparse).map (fun c => c.uncompressedSize)
      = entries.map (fun e => some ((e.2.2.length : Nat) : Int))
    rw [List.map_map]
    exact offsetsCds_sizes now compress entries 0
      (fun e he => (hwfe e he).2.2)
  intro i hi
  have hmm := hm entries[i] (entries.getElem_mem hi)
  simp only [Extractor.pick, jsAt_natCast, List.getElem?_map,
    List.getElem?_eq_getElem hi, Option.map_some', builtPair,
    LocalFileHeader.reparse, entryHeader]
  rcases hmm with h0 | h8
  · rw [h0]
    simp [reparseU16, toUint32, entryBody]
  · rw [h8]
    simp [reparseU16, toUint32, entryBody, hinv]


/-- The entry list of the C1 witness: one stored entry, path `"a"`, content
`[98]`. -/
def c1entries : List (List Nat × Int × List Nat) := [([97], 0, [98])]

/-- The Builder state the C1 witness reaches by appending its entry. -/
def c1b : Builder :=
  (Builder.appendAll ⟨2026, 1, 2, 3, 4, 6⟩ id ⟨[], []⟩
    c1entries).toOption.getD ⟨[], []⟩

/-- The build output of the C1 witness. -/
def c1res : BuildResult := (c1b.build).toOption.getD ⟨[], [], {}⟩

/-- The extractor parsed back from the C1 witness archive. -/
def c1ex : Extractor :=
  (Extractor.construct c1res.bytes).toOption.getD ⟨{}, [], []⟩

set_option maxHeartbeats 2000000 in
/-- Witness for C1 on a one-entry archive: append, build, extract, pick. -/
theorem c1_build_extract_roundtrip_witness :
    (Extractor.construct c1res.bytes).isOk = true ∧
    Extractor.construct c1res.bytes = .ok c1ex ∧
    c1ex.contents.length = 1 ∧
    c1ex.centralDirectory.map (fun c => c.fileNameBytes) = [[97]] ∧
    c1ex.centralDirectory.map (fun c => c.uncompressedSize) = [some 1] ∧
    Extractor.pick id c1ex 0 = .ok [98] := by
  have h := c1_build_extract_roundtrip ⟨2026, 1, 2, 3, 4, 6⟩ id id
    (fun x => rfl) c1entries c1b c1res
    (by decide) (by decide) (by decide)
    (@built_no_sig_after (builtBytes ⟨2026, 1, 2, 3, 4, 6⟩ id c1entries)
      ((builtLocal ⟨2026, 1, 2, 3, 4, 6⟩ id c1entries).length
        + (builtCdBytes ⟨2026, 1, 2, 3, 4, 6⟩ id c1entries).length)
      1 47 32
      (by decide) (by decide) (by decide) (by decide) (by decide)
      (by decide))
    (by decide) (by rfl) (by rfl)
  have hex : Extractor.construct c1res.bytes = .ok c1ex := by rfl
  obtain ⟨h1, h2⟩ := h
  obtain ⟨p1, p2, p3, p4⟩ := h2 c1ex hex
  have p5 := p4 0 (by decide)
  exact ⟨h1, hex, p1, p2, p3, by simpa [c1entries] using p5⟩


/-! Failure of the EOCD scan on a spurious signature: reading past the end
of the buffer. -/

theorem error_bind {α β : Type} (e : String)
    (f : α → Except String β) :
    (Except.error e : Except String α) >>= f = .error e := rfl

/-- `read()` one past the end: the offset setter throws before the array
access. -/
theorem read_past_end {B : List Nat} {o : Int}
    (h : (B.length : Int) < o + 1) :
    ByteArrayCursor.read ⟨B, o⟩ =
      .error ("Index is invalid: " ++ toString (o + 1)) := by
  have hs : ByteArrayCursor.setOff ⟨B, o⟩ (some (o + 1)) =
      .error ("Index is invalid: " ++ toString (o + 1)) := by
    rw [ByteArrayCursor.setOff]
    simp only
    rw [if_neg (by omega)]
  simp only [ByteArrayCursor.read, hs, error_bind]

theorem readUshort_past_end {B : List Nat} {o : Int}
    (h : (B.length : Int) < o + 1) :
    ByteArrayCursor.readAsUshort ⟨B, o⟩ =
      .error ("Index is invalid: " ++ toString (o + 1)) := by
  simp only [ByteArrayCursor.readAsUshort, read_past_end h, error_bind]

/-- Parsing an EOCD record at a spurious signature only 6 bytes before the
end of the buffer: the third field read walks off the end and throws. -/
theorem eocd_from_tail_fails {B : List Nat} {o : Int} (ho : 0 ≤ o)
    (hdrop : B.drop o.toNat = [80, 75, 5, 6, 0, 0])
    (hlen : (B.length : Int) = o + 6) :
    EndOfCentralDirectoryRecord.fromCursor ⟨B, o⟩ =
      .error ("Index is invalid: " ++ toString (o + 6 + 1)) := by
  have hdrop2 : B.drop o.toNat
      = uintBytes (some 101010256) ++ (ushortBytes (some 0) ++ []) := by
    rw [hdrop]
    decide
  obtain ⟨r1, h1⟩ := readUint_of_uintBytes ho hdrop2
  obtain ⟨r2, h2⟩ := readUshort_of_ushortBytes (by omega) h1
  rw [show o + 4 + 2 = o + 6 by ring] at r2
  have r3 := @readUshort_past_end B (o + 6) (by omega)
  simp only [EndOfCentralDirectoryRecord.fromCursor, r1, ok_bind, r2,
    r3, error_bind]

/-! The C1 counterexample: one valid stored entry whose local region is
exactly 0x06054B50 bytes.  The EOCD `cdOffset` field then holds the
signature bytes `50 4B 05 06`, the backward scan latches onto them, and
construction throws instead of round-tripping. -/

/-- The timestamp fixed for the C1 counterexample. -/
def c1now : ZipDateTime := ⟨2026, 1, 2, 3, 4, 6⟩

/-- Content sized so the local region is exactly 0x06054B50 bytes:
30 header bytes + 1 path byte + this length = 101010256. -/
def c1badContent : List Nat := List.replicate 101010225 0

/-- A single valid entry (path `"a"`, method 0 stored) hitting the scan's
blind spot. -/
def c1bad : List (List Nat × Int × List Nat) := [([97], 0, c1badContent)]

/-- The trailing 22 EOCD bytes of the counterexample archive; bytes 16-19
(the `cdOffset` field) repeat the signature. -/
def c1tail : List Nat :=
  [80, 75, 5, 6, 0, 0, 0, 0, 1, 0, 1, 0, 47, 0, 0, 0, 80, 75, 5, 6, 0, 0]

/-- If the scan lands on an offset where EOCD parsing throws, construction
throws. -/
theorem construct_fails_at_tail {B : List Nat} {k : Nat} {msg : String}
    (hfind : findLastSigIdx B = ((k : Nat) : Int))
    (hmv : ByteArrayCursor.moveTo ⟨B, 0⟩ (some ((k : Nat) : Int))
      = .ok ⟨B, ((k : Nat) : Int)⟩)
    (hfail : EndOfCentralDirectoryRecord.fromCursor ⟨B, ((k : Nat) : Int)⟩
      = .error msg) :
    Extractor.construct B = .error msg := by
  simp only [Extractor.construct, hfind, hmv, ok_bind, hfail, error_bind]

set_option maxHeartbeats 2000000 in
/-- C1 counterexample: appending the single valid stored entry above and
building succeeds, but constructing an Extractor from the built bytes
fails (the backward signature scan finds the `cdOffset` field's bytes and
EOCD parsing runs off the end of the buffer), refuting the claim as stated
for every valid entry list. -/
theorem c1_roundtrip_counterexample :
    ((Builder.appendAll c1now id ⟨[], []⟩ c1bad >>= fun b => b.build).map
      (fun res => (Extractor.construct res.bytes).isOk)) = .ok false := by
  have hm : ∀ e ∈ c1bad, e.2.1 = 0 ∨ e.2.1 = 8 := by
    intro e he
    rw [c1bad, List.mem_singleton] at he
    subst he
    left
    rfl
  have happ := appendAll_spec c1now id c1bad ⟨[], []⟩ hm
  have hbuild := build_entries c1now id c1bad _ hm happ
  have hclen : c1badContent.length = 101010225 := by
    rw [c1badContent, List.length_replicate]
  have hbody : entryBody id (0 : Int) c1badContent = c1badContent := by
    rw [entryBody, if_pos rfl]
  have hLeq : builtLocal c1now id c1bad
      = (entryHeader c1now id [97] 0 c1badContent).toBytes
        ++ (entryBody id 0 c1badContent ++ []) := rfl
  have hfn : (entryHeader c1now id [97] 0 c1badContent).fileNameBytes.length
      = 1 := rfl
  have hef : (entryHeader c1now id [97] 0
      c1badContent).extraFieldBytes.length = 0 := rfl
  have hL : (builtLocal c1now id c1bad).length = 101010256 := by
    rw [hLeq, hbody, List.length_append, List.length_append,
      lfh_toBytes_length, hfn, hef, hclen, List.length_nil]
  have hS : (builtCdBytes c1now id c1bad).length = 47 := by
    simp [builtCdBytes, c1bad, offsetsCds, cde_toBytes_length, withOffset,
      builtCd, entryCd]
  have hAlen : (builtBytes c1now id c1bad).length = 101010256 + 47 + 22 := by
    simp only [builtBytes, List.length_append, hL, hS,
      eocd_toBytes_length]
    simp [builtEocd]
  have hdropE : (builtBytes c1now id c1bad).drop (101010256 + 47)
      = (builtEocd c1now id c1bad).toBytes := by
    have h0 : (builtBytes c1now id c1bad).drop
        ((builtLocal c1now id c1bad).length
          + (builtCdBytes c1now id c1bad).length)
        = (builtEocd c1now id c1bad).toBytes := by
      rw [builtBytes, ← List.length_append]
      exact List.drop_left _ _
    rw [hL, hS] at h0
    exact h0
  have hexp : (builtEocd c1now id c1bad).toBytes = c1tail := by
    have h1 := eocd_bytes_explicit 1 47 101010256 (by norm_num)
      (by norm_num) (by norm_num)
    have h2 : builtEocd c1now id c1bad
        = ({ numOfFiles := some ((1 : Nat) : Int),
             totalNumOfFiles := some ((1 : Nat) : Int),
             cdSize := some ((47 : Nat) : Int),
             cdOffset := some ((101010256 : Nat) : Int),
             commentBytes := [] } : EndOfCentralDirectoryRecord) := by
      rw [builtEocd, hL, hS]
      rfl
    rw [h2, h1]
    decide
  have hdropTail : (builtBytes c1now id c1bad).drop (101010256 + 47)
      = c1tail := hdropE.trans hexp
  have hk : sigAt (builtBytes c1now id c1bad) (101010256 + 47 + 16)
      = true := by
    rw [sigAt_of_drop hdropTail]
    decide
  have hafter : ∀ j, 101010256 + 47 + 16 < j →
      sigAt (builtBytes c1now id c1bad) j = false := by
    intro j hj
    obtain ⟨r, rfl⟩ : ∃ r, j = (101010256 + 47) + r :=
      ⟨j - (101010256 + 47), by omega⟩
    have hr : 17 ≤ r := by omega
    rcases Nat.lt_or_ge r 19 with h19 | h19
    · rw [sigAt_of_drop hdropTail]
      interval_cases r <;> decide
    · have h4 : (builtBytes c1now id c1bad)[(101010256 + 47) + r + 3]?
          = none := List.getElem?_eq_none (by rw [hAlen]; omega)
      simp [sigAt, h4]
  have hfind : findLastSigIdx (builtBytes c1now id c1bad)
      = ((101010256 + 47 + 16 : Nat) : Int) := findLastSigIdx_eq hk hafter
  have hdrop6 : (builtBytes c1now id c1bad).drop
      (((101010256 + 47 + 16 : Nat) : Int)).toNat = [80, 75, 5, 6, 0, 0] := by
    rw [Int.toNat_natCast]
    have h0 : ((builtBytes c1now id c1bad).drop (101010256 + 47)).drop 16
        = c1tail.drop 16 := congrArg (List.drop 16) hdropTail
    rw [List.drop_drop] at h0
    rw [h0]
    decide
  have hlen6 : ((builtBytes c1now id c1bad).length : Int)
      = ((101010256 + 47 + 16 : Nat) : Int) + 6 := by
    rw [hAlen]
    norm_num
  have hfail := eocd_from_tail_fails (Int.natCast_nonneg _) hdrop6 hlen6
  have hmv : ByteArrayCursor.moveTo ⟨builtBytes c1now id c1bad, 0⟩
      (some ((101010256 + 47 + 16 : Nat) : Int))
      = .ok ⟨builtBytes c1now id c1bad,
          ((101010256 + 47 + 16 : Nat) : Int)⟩ :=
    moveTo_some (by rw [hAlen]; omega)
  have hcons : Extractor.construct (builtBytes c1now id c1bad)
      = .error ("Index is invalid: "
          ++ toString (((101010256 + 47 + 16 : Nat) : Int) + 6 + 1)) :=
    construct_fails_at_tail hfind hmv hfail
  simp only [happ, ok_bind, hbuild, Except.map, hcons]
  rfl


end ZipJS
